import Mathlib

/-!
Verification development for the DuMM molecular-mechanics force-field
subsystem (`DuMMForceFieldSubsystem.cpp`).  The C++ source is shallowly
embedded: machine `int` becomes `ℤ` (or `ℕ` for dense array indices),
`Real` (C++ `double`) becomes `ℝ` with exact real arithmetic, `std::set`
becomes `Finset`, `std::vector` becomes `List`, `std::map` becomes a
function into `Option`, and fallible operations return `Option`/`Except`.
Each definition mirrors one function or code block of the source.
-/

namespace DuMM

/-! ## Unit conversion constants (source lines 49-60) -/

/-- Conversion from kcal/mol to the consistent internal units Da-A^2/ps^2;
`EnergyUnitsPerKcal = 418.4` exactly (source line 53). -/
noncomputable def EnergyUnitsPerKcal : ℝ := 418.4

/-- Degrees-to-radians factor (source line 50). -/
noncomputable def RadiansPerDegree : ℝ := Real.pi / 180

/-- Coulomb constant in internal units (source line 60). -/
noncomputable def CoulombFac : ℝ := 332.06371 * EnergyUnitsPerKcal

/-! ## Canonical keys: `IntPair`, `IntTriple`, `IntQuad` (source lines 62-136)

The C++ classes store raw `int` tuples; `canonicalize` reorders them into
the canonical form used as `std::map` keys.  We model the already
canonicalised key construction directly on `ℤ` tuples. -/

/-- `IntPair::canonicalize`: canonical is low, high (source line 72). -/
def canonPair (i1 i2 : ℤ) : ℤ × ℤ :=
  if i1 > i2 then (i2, i1) else (i1, i2)

/-- `IntTriple::canonicalize`: canonical has 1st number <= last number;
the middle stays put (source line 93). -/
def canonTriple (i1 i2 i3 : ℤ) : ℤ × ℤ × ℤ :=
  if i1 > i3 then (i3, i2, i1) else (i1, i2, i3)

/-- `IntQuad::canonicalize`: canonical has 1st number <= last number; the
middle two swap exactly when the outside ones do (source lines 117-122). -/
def canonQuad (i1 i2 i3 i4 : ℤ) : ℤ × ℤ × ℤ × ℤ :=
  if i1 > i4 then (i4, i3, i2, i1) else (i1, i2, i3, i4)

/-! ## Bonded-parameter records and the keyed catalog

`BondStretch`, `BondBend`, `BondTorsion` (source lines 382-480).  The
numeric payloads are stored after unit conversion; the catalog maps of the
subsystem rep (source lines 1191-1193) become functions into `Option`. -/

/-- `BondStretch` (source lines 382-392): stiffness and nominal length in
internal units. -/
structure BondStretch where
  k : ℝ
  d0 : ℝ

/-- `BondBend` (source lines 394-412): stiffness and nominal angle in
internal units. -/
structure BondBend where
  k : ℝ
  theta0 : ℝ

/-- `TorsionTerm` (source lines 437-456): periodicity, amplitude (internal
energy units) and phase offset (radians). -/
structure TorsionTerm where
  periodicity : ℤ
  amplitude : ℝ
  theta0 : ℝ

/-- `TorsionTerm::TorsionTerm(n, amp, th0)` (source lines 440-443): unit
conversion from kcal/mol and degrees. -/
noncomputable def mkTorsionTerm (n : ℤ) (amp th0 : ℝ) : TorsionTerm :=
  ⟨n, amp * EnergyUnitsPerKcal, th0 * RadiansPerDegree⟩

/-- `BondTorsion` (source lines 458-480) is its list of terms. -/
def BondTorsion := List TorsionTerm

/-- The three catalog maps of `DuMMForceFieldSubsystemRep`
(source lines 1191-1193). -/
structure ForceFieldMaps where
  bondStretch : ℤ × ℤ → Option BondStretch
  bondBend : ℤ × ℤ × ℤ → Option BondBend
  bondTorsion : ℤ × ℤ × ℤ × ℤ → Option BondTorsion

/-- `DuMMForceFieldSubsystemRep::getBondStretch` (source lines 1636-1642):
canonicalise the pair, then look it up. -/
def getBondStretch (m : ForceFieldMaps) (class1 class2 : ℤ) : Option BondStretch :=
  m.bondStretch (canonPair class1 class2)

/-- `DuMMForceFieldSubsystemRep::getBondBend` (source lines 1644-1650):
canonicalise the triple, then look it up. -/
def getBondBend (m : ForceFieldMaps) (class1 class2 class3 : ℤ) : Option BondBend :=
  m.bondBend (canonTriple class1 class2 class3)

/-- `DuMMForceFieldSubsystemRep::getBondTorsion` (source lines 1652-1660):
canonicalise the quad, then look it up. -/
def getBondTorsion (m : ForceFieldMaps) (class1 class2 class3 class4 : ℤ) : Option BondTorsion :=
  m.bondTorsion (canonQuad class1 class2 class3 class4)

/-! ## Van der Waals combining rules (source lines 176-272) -/

/-- `arithmeticMean` (source line 176). -/
noncomputable def arithmeticMean (a b : ℝ) : ℝ := 0.5 * (a + b)

/-- `geometricMean` (source line 179). -/
noncomputable def geometricMean (a b : ℝ) : ℝ := Real.sqrt (a * b)

/-- `harmonicMean` (source line 182). -/
noncomputable def harmonicMean (a b : ℝ) : ℝ := (2 * a * b) / (a + b)

/-- `cubicMean = (a^3+b^3)/(a^2+b^2)` (source line 188). -/
noncomputable def cubicMean (a b : ℝ) : ℝ := (a * a * a + b * b * b) / (a * a + b * b)

/-- `hhgMean`: harmonic mean of harmonic and geometric means
(source line 194). -/
noncomputable def hhgMean (a b : ℝ) : ℝ := harmonicMean (harmonicMean a b) (geometricMean a b)

/-- `vdwCombineLorentzBerthelot` (source lines 199-205). -/
noncomputable def vdwCombineLorentzBerthelot (ri rj ei ej : ℝ) : ℝ × ℝ :=
  (arithmeticMean ri rj, geometricMean ei ej)

/-- `vdwCombineJorgensen` (source lines 208-214). -/
noncomputable def vdwCombineJorgensen (ri rj ei ej : ℝ) : ℝ × ℝ :=
  (geometricMean ri rj, geometricMean ei ej)

/-- `vdwCombineHalgrenHHG` (source lines 217-223). -/
noncomputable def vdwCombineHalgrenHHG (ri rj ei ej : ℝ) : ℝ × ℝ :=
  (cubicMean ri rj, hhgMean ei ej)

/-- `oo6 = 1/6` (source line 225). -/
noncomputable def oo6 : ℝ := 1 / 6

/-- `oo13 = 1/13` (source line 226). -/
noncomputable def oo13 : ℝ := 1 / 13

/-- `vdwCombineWaldmanHagler` (source lines 232-243); `std::pow` is modelled
by the real power `Real.rpow`. -/
noncomputable def vdwCombineWaldmanHagler (ri rj ei ej : ℝ) : ℝ × ℝ :=
  let ri3 := ri * ri * ri
  let ri6 := ri3 * ri3
  let rj3 := rj * rj * rj
  let rj6 := rj3 * rj3
  let er6 := geometricMean (ei * ri6) (ej * rj6)
  let r6 := arithmeticMean ri6 rj6
  (r6 ^ oo6, er6 / r6)

/-- `vdwCombineKong` (source lines 256-272). -/
noncomputable def vdwCombineKong (ri rj ei ej : ℝ) : ℝ × ℝ :=
  let ri3 := ri * ri * ri
  let ri6 := ri3 * ri3
  let ri12 := ri6 * ri6
  let rj3 := rj * rj * rj
  let rj6 := rj3 * rj3
  let rj12 := rj6 * rj6
  let er6 := geometricMean (ei * ri6) (ej * rj6)
  let eri12u13 := (ei * ri12) ^ oo13
  let erj12u13 := (ej * rj12) ^ oo13
  let er12u13 := arithmeticMean eri12u13 erj12u13
  let r6 := er12u13 ^ (13 : ℝ) / er6
  (r6 ^ oo6, er6 / r6)

/-- `DuMMForceFieldSubsystemRep::applyMixingRule` (source lines 931-941):
the active rule is Waldman-Hagler, and the stored `dmin` is twice the
combined radius. -/
noncomputable def applyMixingRule (ri rj ei ej : ℝ) : ℝ × ℝ :=
  let re := vdwCombineWaldmanHagler ri rj ei ej
  (2 * re.1, re.2)

/-! ## Cartesian vectors

The SimTK `Vec3` value type with the operations the kernels use:
addition, subtraction, scaling, dot product (`~a*b`), cross product
(`a % b`) and squared norm (`normSqr`). -/

/-- Three-component real vector (SimTK `Vec3`). -/
@[ext] structure Vec3 where
  x : ℝ
  y : ℝ
  z : ℝ

namespace Vec3

instance : Zero Vec3 := ⟨⟨0, 0, 0⟩⟩
instance : Add Vec3 := ⟨fun a b => ⟨a.x + b.x, a.y + b.y, a.z + b.z⟩⟩
instance : Sub Vec3 := ⟨fun a b => ⟨a.x - b.x, a.y - b.y, a.z - b.z⟩⟩
instance : Neg Vec3 := ⟨fun a => ⟨-a.x, -a.y, -a.z⟩⟩
instance : SMul ℝ Vec3 := ⟨fun c a => ⟨c * a.x, c * a.y, c * a.z⟩⟩

/-- Dot product `~a * b`. -/
def dot (a b : Vec3) : ℝ := a.x * b.x + a.y * b.y + a.z * b.z

/-- Cross product `a % b`. -/
def cross (a b : Vec3) : Vec3 :=
  ⟨a.y * b.z - a.z * b.y, a.z * b.x - a.x * b.z, a.x * b.y - a.y * b.x⟩

/-- Squared Euclidean norm `a.normSqr`. -/
def normSqr (a : Vec3) : ℝ := dot a a

/-- Euclidean norm `a.norm`. -/
noncomputable def norm (a : Vec3) : ℝ := Real.sqrt (normSqr a)

/-- `UnitVec3(w)`: normalise a (nonzero) vector. -/
noncomputable def unitOf (w : Vec3) : Vec3 := (1 / norm w) • w

/-- Modelled from the spec: `UnitVec3::perp()` of the SimTK vector library
(its code is not part of this repository) returns "an arbitrary unit
vector perpendicular to" its argument; this concrete choice is such a
vector for every nonzero argument. -/
noncomputable def perpOf (w : Vec3) : Vec3 :=
  if w.x = 0 ∧ w.y = 0 then ⟨1, 0, 0⟩ else unitOf ⟨-w.y, w.x, 0⟩

end Vec3

/-- A spatial vector: torque about the origin paired with a force
(SimTK `SpatialVec`). -/
structure SpatialVec where
  torque : Vec3
  force : Vec3

instance : Neg SpatialVec := ⟨fun s => ⟨-s.torque, -s.force⟩⟩

/-! ## The non-bonded inner kernel (source lines 2009-2054)

One iteration of the innermost loop of
`DuMMForceFieldSubsystemRep::realizeDynamics`: atom `a1` on body `b1`,
atom `a2` on body `b2 > b1`.  Inputs are the already-fetched per-atom data:
`q1Fac = CoulombFac * q1` (source line 1894), `q2` the partial charge of
`a2`, the scale factors `coulombScale[a2num]` and `vdwScale[a2num]`, the
precomputed pair parameters `dij`, `eij`, the ground-frame positions and
the ground-frame stations.  Outputs are the energy added to `pe` and the
spatial forces added to the two body accumulators. -/

/-- Result of one non-bonded pair evaluation: the summand added to the
potential energy, the spatial force added to body `b2`'s accumulator and
the spatial force added to body `b1`'s accumulator. -/
structure NonbondedOut where
  energy : ℝ
  addToB2 : SpatialVec
  addToB1 : SpatialVec

/-- Source lines 2019-2054, transcribed line by line. -/
noncomputable def nonbondedPairKernel (q1Fac q2 coulombScaleA2 vdwScaleA2 dij eij : ℝ)
    (a1PosG a2PosG a1StationG a2StationG : Vec3) : NonbondedOut :=
  let r := a2PosG - a1PosG
  let d2 := r.normSqr
  let ood := 1 / Real.sqrt d2
  let ood2 := ood * ood
  let qq := coulombScaleA2 * q1Fac * q2
  let eCoulomb := qq * ood
  let fCoulomb := eCoulomb
  let ddij2 := dij * dij * ood2
  let ddij6 := ddij2 * ddij2 * ddij2
  let ddij12 := ddij6 * ddij6
  let eijScale := vdwScaleA2 * eij
  let eVdw := eijScale * (ddij12 - 2 * ddij6)
  let fVdw := 12 * eijScale * (ddij12 - ddij6)
  let fj := ((fCoulomb + fVdw) * ood2) • r
  { energy := eCoulomb + eVdw
    addToB2 := ⟨Vec3.cross a2StationG fj, fj⟩
    addToB1 := -(⟨Vec3.cross a1StationG fj, fj⟩ : SpatialVec) }

/-! ## The periodic-torsion kernel `BondTorsion::periodic`
(source lines 2213-2280) -/

/-- `TorsionTerm::energy` (source lines 446-448). -/
noncomputable def TorsionTerm.energy (tt : TorsionTerm) (theta : ℝ) : ℝ :=
  tt.amplitude * (1 + Real.cos ((tt.periodicity : ℝ) * theta - tt.theta0))

/-- `TorsionTerm::torque` (source lines 449-451). -/
noncomputable def TorsionTerm.torque (tt : TorsionTerm) (theta : ℝ) : ℝ :=
  (tt.periodicity : ℝ) * tt.amplitude * Real.sin ((tt.periodicity : ℝ) * theta - tt.theta0)

/-- Modelled from the spec: `std::atan2` of the C++ standard library is the
angle of the point `(x, y)` in `(-pi, pi]`, which is `Complex.arg`. -/
noncomputable def atan2 (y x : ℝ) : ℝ := Complex.arg ⟨x, y⟩

/-- The unit axis vector `v` of the torsion kernel with its two degenerate
fallbacks (source lines 2230-2236). -/
noncomputable def torsionAxis (rG xG yG sG : Vec3) : Vec3 :=
  let r := xG - rG
  let s := sG - yG
  let xy := yG - xG
  let vv := Vec3.dot xy xy
  let oov := if vv = 0 then (0 : ℝ) else 1 / Real.sqrt vv
  if oov ≠ 0 then oov • xy
  else if (Vec3.cross r s).norm ≠ 0 then Vec3.unitOf (Vec3.cross r s)
  else Vec3.perpOf r

/-- Result of `BondTorsion::periodic`: the torsion angle, the potential
energy, and one force per atom of the chain r-x-y-s.  In the early-return
branch the source leaves `theta` unassigned; the model returns 0 there. -/
structure TorsionOut where
  theta : ℝ
  pe : ℝ
  rf : Vec3
  xf : Vec3
  yf : Vec3
  sf : Vec3

/-- `BondTorsion::periodic` (source lines 2213-2280), transcribed line by
line on top of `torsionAxis`. -/
noncomputable def periodic (terms : List TorsionTerm) (rG xG yG sG : Vec3) : TorsionOut :=
  let r := xG - rG
  let s := sG - yG
  let xy := yG - xG
  let vv := Vec3.dot xy xy
  let oov := if vv = 0 then (0 : ℝ) else 1 / Real.sqrt vv
  let v := torsionAxis rG xG yG sG
  let t := Vec3.cross r v
  let u := Vec3.cross v s
  let tt := Vec3.dot t t
  let uu := Vec3.dot u u
  if tt = 0 ∨ uu = 0 then ⟨0, 0, 0, 0, 0, 0⟩
  else
    let txu := Vec3.cross t u
    let ootu := 1 / Real.sqrt (tt * uu)
    let cth := Vec3.dot t u * ootu
    let sth := Vec3.dot v txu * ootu
    let theta := atan2 sth cth
    let pe := (terms.map (fun tm => tm.energy theta)).sum
    let torque := (terms.map (fun tm => tm.torque theta)).sum
    let ry := yG - rG
    let xs := sG - xG
    let dedt := (torque / tt) • Vec3.cross t v
    let dedu := (-(torque / uu)) • Vec3.cross u v
    let rf := Vec3.cross dedt v
    let sf := Vec3.cross dedu v
    if oov = 0 then ⟨theta, pe, rf, -rf, -sf, sf⟩
    else
      let xf := oov • (Vec3.cross ry dedt + Vec3.cross dedu s)
      let yf := oov • (Vec3.cross dedt r + Vec3.cross xs dedu)
      ⟨theta, pe, rf, xf, yf, sf⟩

/-! ## Derived bonded-neighbour lists (source lines 1743-1803)

For each atom `a`, `realizeConstruction` sorts the raw `bond12` list, then
grows a `std::set<int> allBondedSoFar` (initially `{a} ∪ bond12`) while
building `bond13`, `bond14` and `bond15` by expanding, in turn, the 1-2
lists of the previous stage's atoms, recording only atoms not yet in the
set.  Atoms are identified by dense `ℕ` ids; the adjacency `adj` maps an
atom to its raw `bond12` list. -/

/-- Insertion sort with an explicit strict-before test, the shape of the
`std::sort` calls; only the multiset of elements matters to the claims. -/
def insertBy {α : Type} (lt : α → α → Bool) (a : α) : List α → List α
  | [] => [a]
  | b :: l => if lt a b then a :: b :: l else b :: insertBy lt a l

/-- `std::sort` modelled as insertion sort by the strict order `lt`. -/
def sortBy {α : Type} (lt : α → α → Bool) : List α → List α
  | [] => []
  | a :: l => insertBy lt a (sortBy lt l)

/-- `operator<` on atom ids. -/
def ltNat (a b : ℕ) : Bool := decide (a < b)

/-- `operator<` on `IntPair` (source lines 76-81): lexicographic. -/
def ltPair (p q : ℕ × ℕ) : Bool :=
  decide (p.1 < q.1 ∨ (p.1 = q.1 ∧ p.2 < q.2))

/-- `operator<` on `IntTriple` (source lines 97-104): lexicographic. -/
def ltTriple (p q : ℕ × ℕ × ℕ) : Bool :=
  decide (p.1 < q.1 ∨ (p.1 = q.1 ∧ (p.2.1 < q.2.1 ∨ (p.2.1 = q.2.1 ∧ p.2.2 < q.2.2))))

/-- `operator<` on `IntQuad` (source lines 127-136): lexicographic. -/
def ltQuad (p q : ℕ × ℕ × ℕ × ℕ) : Bool :=
  decide (p.1 < q.1 ∨ (p.1 = q.1 ∧ (p.2.1 < q.2.1 ∨ (p.2.1 = q.2.1
    ∧ (p.2.2.1 < q.2.2.1 ∨ (p.2.2.1 = q.2.2.1 ∧ p.2.2.2 < q.2.2.2))))))

/-- The inner loop of one expansion stage (e.g. source lines 1765-1771):
scan the 1-2 list `nbrs` of one frontier atom; each atom not yet visited is
added to the visited set and recorded (via `rec`, which attaches the chain
prefix) at the back of the accumulator. -/
def expandOne {π : Type} (rec : ℕ → π) : List ℕ → Finset ℕ → List π → Finset ℕ × List π
  | [], vis, acc => (vis, acc)
  | c :: rest, vis, acc =>
    if c ∈ vis then expandOne rec rest vis acc
    else expandOne rec rest (insert c vis) (acc ++ [rec c])

/-- The outer loop of one expansion stage (e.g. source lines 1762-1772):
for each source chain `s`, expand the 1-2 list of the atom `tailf s`. -/
def expandAll {σ π : Type} (adj : ℕ → List ℕ) (tailf : σ → ℕ) (rec : σ → ℕ → π) :
    List σ → Finset ℕ → List π → Finset ℕ × List π
  | [], vis, acc => (vis, acc)
  | s :: rest, vis, acc =>
    let p := expandOne (rec s) (adj (tailf s)) vis acc
    expandAll adj tailf rec rest p.1 p.2

/-- The sorted `bond12` list of atom `a` (source line 1751). -/
def realizedBond12 (adj : ℕ → List ℕ) (a : ℕ) : List ℕ := sortBy ltNat (adj a)

/-- `allBondedSoFar` after source lines 1754-1755: `{a} ∪ bond12`. -/
def visited12 (adj : ℕ → List ℕ) (a : ℕ) : Finset ℕ :=
  insert a (realizedBond12 adj a).toFinset

/-- Building the `bond13` list (source lines 1760-1772): expand the 1-2
lists of the atoms of `bond12`, recording pairs `(b, newAtom)`. -/
def stage13 (adj : ℕ → List ℕ) (a : ℕ) : Finset ℕ × List (ℕ × ℕ) :=
  expandAll adj id (fun b c => (b, c)) (realizedBond12 adj a) (visited12 adj a) []

/-- Building the `bond14` list (source lines 1775-1788): expand the 1-2
list of `bond13[j][1]` (the pair's tail) for each pair of the *sorted*
`bond13` list, recording triples. -/
def stage14 (adj : ℕ → List ℕ) (a : ℕ) : Finset ℕ × List (ℕ × ℕ × ℕ) :=
  expandAll adj (fun p => p.2) (fun p c => (p.1, p.2, c))
    (sortBy ltPair (stage13 adj a).2) (stage13 adj a).1 []

/-- Building the `bond15` list (source lines 1790-1802): the source expands
the 1-2 list of `bond14[j][1]` — the *second* entry of the triple, i.e. the
1-3 atom of the chain, not its 1-4 tail `bond14[j][2]` — recording quads. -/
def stage15 (adj : ℕ → List ℕ) (a : ℕ) : Finset ℕ × List (ℕ × ℕ × ℕ × ℕ) :=
  expandAll adj (fun t => t.2.1) (fun t c => (t.1, t.2.1, t.2.2, c))
    (sortBy ltTriple (stage14 adj a).2) (stage14 adj a).1 []

/-- The derived neighbour cache of one atom after `realizeConstruction`
(source lines 1745-1803), with each list sorted as in the source. -/
structure DerivedBonds where
  bond13 : List (ℕ × ℕ)
  bond14 : List (ℕ × ℕ × ℕ)
  bond15 : List (ℕ × ℕ × ℕ × ℕ)

/-- `realizeConstruction`'s per-atom neighbour-list computation. -/
def realizeBondPaths (adj : ℕ → List ℕ) (a : ℕ) : DerivedBonds :=
  ⟨sortBy ltPair (stage13 adj a).2,
   sortBy ltTriple (stage14 adj a).2,
   sortBy ltQuad (stage15 adj a).2⟩

/-- The 1-3 neighbours of `a`: the tails `bond13[*].1` of the claim. -/
def tails13 (adj : ℕ → List ℕ) (a : ℕ) : List ℕ :=
  (realizeBondPaths adj a).bond13.map (fun p => p.2)

/-- The 1-4 neighbours of `a`: the tails `bond14[*].2` of the claim. -/
def tails14 (adj : ℕ → List ℕ) (a : ℕ) : List ℕ :=
  (realizeBondPaths adj a).bond14.map (fun p => p.2.2)

/-- The 1-5 neighbours of `a`: the tails `bond15[*].3` of the claim. -/
def tails15 (adj : ℕ → List ℕ) (a : ℕ) : List ℕ :=
  (realizeBondPaths adj a).bond15.map (fun p => p.2.2.2)

/-! Reference notions used to settle C2: neighbourhoods of finite sets,
balls of the bond graph, and walks of a fixed length. -/

/-- All 1-2 neighbours of a finite set of atoms. -/
def nbrSet (adj : ℕ → List ℕ) (S : Finset ℕ) : Finset ℕ :=
  S.biUnion (fun v => (adj v).toFinset)

/-- The ball of radius `k` around `a` in the bond graph. -/
def ball (adj : ℕ → List ℕ) (a : ℕ) : ℕ → Finset ℕ
  | 0 => {a}
  | k + 1 => ball adj a k ∪ nbrSet adj (ball adj a k)

/-- `hasWalk adj n a b`: there is a walk of length exactly `n` from `a`
to `b` along bonds. -/
def hasWalk (adj : ℕ → List ℕ) : ℕ → ℕ → ℕ → Prop
  | 0, a, b => a = b
  | n + 1, a, b => ∃ c, c ∈ adj a ∧ hasWalk adj n c b

/-- The two-atom one-bond graph used as a concrete witness input. -/
def adjH2 : ℕ → List ℕ := fun v => if v = 0 then [1] else if v = 1 then [0] else []

/-! ## Per-chain parameter resolution (source lines 1830-1849)

During realization, each atom `a` resolves one catalog parameter per
cross-body chain.  For the 1-3 chains (source lines 1836-1841) the lookup
is `getBondBend(classOf a, classOf m, classOf t)` for the chain entry
`(m, t)` of `xbond13`; atom classes are given by `classOf`. -/

/-- The `a.bend` array: index-parallel to `xbond13`
(source lines 1837-1841). -/
def resolvedBends (m : ForceFieldMaps) (classOf : ℕ → ℤ) (a : ℕ)
    (xbond13 : List (ℕ × ℕ)) : List (Option BondBend) :=
  xbond13.map (fun p => getBondBend m (classOf a) (classOf p.1) (classOf p.2))

/-! ## The scaling harness (source lines 2064-2104)

`scaleBondedAtoms` writes the four scale-factor pairs into the two scratch
vectors at the positions named by the cross-body bond lists;
`unscaleBondedAtoms` writes 1 back at the same positions under the same
guards.  The scratch `Vector`s become functions `ℕ → ℝ`. -/

/-- The cross-body bond lists of one atom (fields `xbond12 .. xbond15` of
`Atom`, source lines 589-592). -/
structure XBonds where
  xbond12 : List ℕ
  xbond13 : List (ℕ × ℕ)
  xbond14 : List (ℕ × ℕ × ℕ)
  xbond15 : List (ℕ × ℕ × ℕ × ℕ)

/-- The eight scale factors of the subsystem rep (source lines 1197-1200). -/
structure ScaleFactors where
  vdwScale12 : ℝ
  coulombScale12 : ℝ
  vdwScale13 : ℝ
  coulombScale13 : ℝ
  vdwScale14 : ℝ
  coulombScale14 : ℝ
  vdwScale15 : ℝ
  coulombScale15 : ℝ

/-- One assignment loop `for i: v[ixs i] = val` over a list of positions. -/
def writeList (xs : List ℕ) (val : ℝ) (f : ℕ → ℝ) : ℕ → ℝ :=
  match xs with
  | [] => f
  | i :: rest => writeList rest val (Function.update f i val)

/-- `DuMMForceFieldSubsystemRep::scaleBondedAtoms` (source lines 2064-2085);
the 1-4 and 1-5 loops run only when the corresponding pair of factors is
not the identity. -/
noncomputable def scaleBondedAtoms (sf : ScaleFactors) (a : XBonds)
    (vdwScale coulombScale : ℕ → ℝ) : (ℕ → ℝ) × (ℕ → ℝ) :=
  let v1 := writeList a.xbond12 sf.vdwScale12 vdwScale
  let c1 := writeList a.xbond12 sf.coulombScale12 coulombScale
  let v2 := writeList (a.xbond13.map (fun p => p.2)) sf.vdwScale13 v1
  let c2 := writeList (a.xbond13.map (fun p => p.2)) sf.coulombScale13 c1
  let v3 := if sf.vdwScale14 ≠ 1 ∨ sf.coulombScale14 ≠ 1 then
      writeList (a.xbond14.map (fun p => p.2.2)) sf.vdwScale14 v2 else v2
  let c3 := if sf.vdwScale14 ≠ 1 ∨ sf.coulombScale14 ≠ 1 then
      writeList (a.xbond14.map (fun p => p.2.2)) sf.coulombScale14 c2 else c2
  let v4 := if sf.vdwScale15 ≠ 1 ∨ sf.coulombScale15 ≠ 1 then
      writeList (a.xbond15.map (fun p => p.2.2.2)) sf.vdwScale15 v3 else v3
  let c4 := if sf.vdwScale15 ≠ 1 ∨ sf.coulombScale15 ≠ 1 then
      writeList (a.xbond15.map (fun p => p.2.2.2)) sf.coulombScale15 c3 else c3
  (v4, c4)

/-- `DuMMForceFieldSubsystemRep::unscaleBondedAtoms`
(source lines 2087-2104). -/
noncomputable def unscaleBondedAtoms (sf : ScaleFactors) (a : XBonds)
    (vdwScale coulombScale : ℕ → ℝ) : (ℕ → ℝ) × (ℕ → ℝ) :=
  let v1 := writeList a.xbond12 1 vdwScale
  let c1 := writeList a.xbond12 1 coulombScale
  let v2 := writeList (a.xbond13.map (fun p => p.2)) 1 v1
  let c2 := writeList (a.xbond13.map (fun p => p.2)) 1 c1
  let v3 := if sf.vdwScale14 ≠ 1 ∨ sf.coulombScale14 ≠ 1 then
      writeList (a.xbond14.map (fun p => p.2.2)) 1 v2 else v2
  let c3 := if sf.vdwScale14 ≠ 1 ∨ sf.coulombScale14 ≠ 1 then
      writeList (a.xbond14.map (fun p => p.2.2)) 1 c2 else c2
  let v4 := if sf.vdwScale15 ≠ 1 ∨ sf.coulombScale15 ≠ 1 then
      writeList (a.xbond15.map (fun p => p.2.2.2)) 1 v3 else v3
  let c4 := if sf.vdwScale15 ≠ 1 ∨ sf.coulombScale15 ≠ 1 then
      writeList (a.xbond15.map (fun p => p.2.2.2)) 1 c3 else c3
  (v4, c4)

/-! ## The molecule graph and `addBond` (source lines 1005-1029)

Only the data `addBond` touches is modelled: the per-atom `bond12` lists
(indexed by dense atom id) and the bond array of canonicalised pairs.
The C++ `assert`s become `Option` failures. -/

/-- Atoms' `bond12` lists plus the bond array. -/
structure MolGraph where
  atoms : List (List ℕ)
  bonds : List (ℕ × ℕ)

/-- `isValidAtom` (source lines 899-901), restricted to the modelled data:
the id is within the atom array. -/
def MolGraph.isValidAtom (g : MolGraph) (a : ℕ) : Prop := a < g.atoms.length

instance (g : MolGraph) (a : ℕ) : Decidable (g.isValidAtom a) :=
  inferInstanceAs (Decidable (a < g.atoms.length))

/-- The `bond12` list of atom `a`. -/
def MolGraph.bond12 (g : MolGraph) (a : ℕ) : List ℕ := g.atoms.getD a []

/-- `Atom::isBondedTo` (source lines 540-544). -/
def MolGraph.isBondedTo (g : MolGraph) (a b : ℕ) : Prop := b ∈ g.bond12 a

instance (g : MolGraph) (a b : ℕ) : Decidable (g.isBondedTo a b) :=
  inferInstanceAs (Decidable (b ∈ g.bond12 a))

/-- The linear scan `for i in bonds: if bonds[i].atoms == (a1,a2) return i`
(source lines 1019-1021). -/
def findBondIdx (p : ℕ × ℕ) : List (ℕ × ℕ) → Option ℕ
  | [] => none
  | q :: rest => if q = p then some 0 else (findBondIdx p rest).map (· + 1)

/-- `DuMMForceFieldSubsystemRep::addBond` (source lines 1005-1029).
Returns the bond id and the updated graph; `none` models a failed
`assert`. -/
def addBond (g : MolGraph) (atom1 atom2 : ℕ) : Option (ℕ × MolGraph) :=
  if ¬(g.isValidAtom atom1 ∧ g.isValidAtom atom2) then none
  else if atom1 = atom2 then none
  else
    -- Ensure that atom1 < atom2 (source lines 1011-1012)
    let a1 := min atom1 atom2
    let a2 := max atom1 atom2
    if g.isBondedTo a1 a2 then
      (findBondIdx (a1, a2) g.bonds).map (fun i => (i, g))
    else
      some (g.bonds.length,
        ⟨(g.atoms.set a1 (g.bond12 a1 ++ [a2])).set a2 (g.bond12 a2 ++ [a1]),
         g.bonds ++ [(a1, a2)]⟩)

/-! ## `defineBondTorsion` (source lines 1355-1433)

The torsion catalog is the `bondTorsion` map alone; a slot with
`periodicity = -1` is "not supplied".  Every `SimTK_APIARGCHECK` becomes an
`Except.error` exit, in source order; the final `std::map::insert` fails
exactly when the canonical key is already present, leaving the map
unchanged. -/

/-- The torsion catalog: canonical quad keys to term lists. -/
def TorsionMap := ℤ × ℤ × ℤ × ℤ → Option BondTorsion

/-- `DuMMForceFieldSubsystem::defineBondTorsion` (source lines 1355-1433),
acting on the torsion catalog; `validClass` is
`isValidAtomClass` (source lines 921-924). -/
noncomputable def defineBondTorsion (validClass : ℤ → Bool) (tors : TorsionMap)
    (class1 class2 class3 class4 : ℤ)
    (periodicity1 : ℤ) (amp1InKcal phase1InDegrees : ℝ)
    (periodicity2 : ℤ) (amp2InKcal phase2InDegrees : ℝ)
    (periodicity3 : ℤ) (amp3InKcal phase3InDegrees : ℝ) :
    Except Unit TorsionMap :=
  if ¬validClass class1 then .error ()
  else if ¬validClass class2 then .error ()
  else if ¬validClass class3 then .error ()
  else if ¬validClass class4 then .error ()
  else if periodicity1 ≠ -1 ∧ ¬(1 ≤ periodicity1 ∧ periodicity1 ≤ 6) then .error ()
  else if periodicity1 ≠ -1 ∧ ¬(0 ≤ amp1InKcal) then .error ()
  else if periodicity1 ≠ -1 ∧ ¬(0 ≤ phase1InDegrees ∧ phase1InDegrees ≤ 180) then .error ()
  else if periodicity1 ≠ -1 ∧ (periodicity2 = periodicity1 ∨ periodicity3 = periodicity1) then
    .error ()
  else if periodicity2 ≠ -1 ∧ ¬(1 ≤ periodicity2 ∧ periodicity2 ≤ 6) then .error ()
  else if periodicity2 ≠ -1 ∧ ¬(0 ≤ amp2InKcal) then .error ()
  else if periodicity2 ≠ -1 ∧ ¬(0 ≤ phase2InDegrees ∧ phase2InDegrees ≤ 180) then .error ()
  else if periodicity2 ≠ -1 ∧ periodicity3 = periodicity2 then .error ()
  else if periodicity3 ≠ -1 ∧ ¬(1 ≤ periodicity3 ∧ periodicity3 ≤ 6) then .error ()
  else if periodicity3 ≠ -1 ∧ ¬(0 ≤ amp3InKcal) then .error ()
  else if periodicity3 ≠ -1 ∧ ¬(0 ≤ phase3InDegrees ∧ phase3InDegrees ≤ 180) then .error ()
  else if periodicity1 = -1 ∧ periodicity2 = -1 ∧ periodicity3 = -1 then .error ()
  else
    let bt : BondTorsion :=
      (if periodicity1 ≠ -1 then [mkTorsionTerm periodicity1 amp1InKcal phase1InDegrees] else [])
      ++ (if periodicity2 ≠ -1 then [mkTorsionTerm periodicity2 amp2InKcal phase2InDegrees] else [])
      ++ (if periodicity3 ≠ -1 then [mkTorsionTerm periodicity3 amp3InKcal phase3InDegrees] else [])
    let key := canonQuad class1 class2 class3 class4
    match tors key with
    | some _ => .error ()
    | none => .ok (Function.update tors key (some bt))

/-- The claim's failure condition for `defineBondTorsion`: some supplied
term is out of range, two supplied terms share a periodicity, a class id
is undefined, no term is supplied, or the canonical quad is already
defined. -/
def torsionDefFails (validClass : ℤ → Bool) (tors : TorsionMap)
    (class1 class2 class3 class4 : ℤ)
    (p1 : ℤ) (a1 f1 : ℝ) (p2 : ℤ) (a2 f2 : ℝ) (p3 : ℤ) (a3 f3 : ℝ) : Prop :=
  (p1 ≠ -1 ∧ (¬(1 ≤ p1 ∧ p1 ≤ 6) ∨ ¬(0 ≤ a1) ∨ ¬(0 ≤ f1 ∧ f1 ≤ 180)))
  ∨ (p2 ≠ -1 ∧ (¬(1 ≤ p2 ∧ p2 ≤ 6) ∨ ¬(0 ≤ a2) ∨ ¬(0 ≤ f2 ∧ f2 ≤ 180)))
  ∨ (p3 ≠ -1 ∧ (¬(1 ≤ p3 ∧ p3 ≤ 6) ∨ ¬(0 ≤ a3) ∨ ¬(0 ≤ f3 ∧ f3 ≤ 180)))
  ∨ (p1 ≠ -1 ∧ p2 = p1) ∨ (p1 ≠ -1 ∧ p3 = p1) ∨ (p2 ≠ -1 ∧ p3 = p2)
  ∨ ¬(validClass class1 ∧ validClass class2 ∧ validClass class3 ∧ validClass class4)
  ∨ (p1 = -1 ∧ p2 = -1 ∧ p3 = -1)
  ∨ (tors (canonQuad class1 class2 class3 class4)).isSome

/-! ## Clusters and cluster ids (source lines 882-892, 943-948, 1538-1541)

Only the cluster array is modelled: the constructor adds the reserved
"free atoms and groups" cluster before any user call; `addCluster` assigns
the next dense id; `createCluster` is the user-facing wrapper. -/

/-- The fields of `Cluster` relevant to id assignment: the id (written by
`addCluster`) and the name. -/
structure Cluster where
  clusterId : ℤ
  name : String

/-- The cluster array of the subsystem rep. -/
structure ClusterArray where
  clusters : List Cluster

/-- `DuMMForceFieldSubsystemRep::addCluster` (source lines 943-948): the
new cluster id is the current array size. -/
def addCluster (st : ClusterArray) (c : Cluster) : ℕ × ClusterArray :=
  (st.clusters.length,
   ⟨st.clusters ++ [⟨(st.clusters.length : ℤ), c.name⟩]⟩)

/-- The cluster-array part of the `DuMMForceFieldSubsystemRep` constructor
(source lines 882-892): starting empty, add the "free atoms and groups"
cluster (and `assert` its id is 0). -/
def initClusters : ClusterArray :=
  (addCluster ⟨[]⟩ ⟨-1, "free atoms and groups"⟩).2

/-- `DuMMForceFieldSubsystem::createCluster` (source lines 1538-1541). -/
def createCluster (st : ClusterArray) (nm : String) : ℕ × ClusterArray :=
  addCluster st ⟨-1, nm⟩

/-! ## Concrete catalog fragments used as counterexample and witness
inputs -/

/-- A catalog holding exactly one bond-bend entry, at key `(1, 2, 3)`. -/
def bendDemoMaps : ForceFieldMaps :=
  ⟨fun _ => none, fun t => if t = (1, 2, 3) then some ⟨1, 1⟩ else none, fun _ => none⟩

/-- Atom classes `0 ↦ 1, 1 ↦ 2, 2 ↦ 3, ...`. -/
def classDemo : ℕ → ℤ := fun n => (n : ℤ) + 1

/-- A catalog holding exactly one bond-torsion entry, at key
`(1, 2, 3, 1)`. -/
def quadDemoMaps : ForceFieldMaps :=
  ⟨fun _ => none, fun _ => none, fun q => if q = (1, 2, 3, 1) then some [] else none⟩

/-- A molecule graph with six bond-free atoms. -/
def molDemo : MolGraph := ⟨[[], [], [], [], [], []], []⟩

/-!  #########################################################################
Theorems.  Each claim `Cn` of the specification is settled by the theorem
`cn_thm` (plus, where applicable, `cn_counterexample` and `cn_witness`);
the remaining lemmas are shared supporting material.
######################################################################### -/

/-! ## Componentwise vector lemmas -/

theorem Vec3.zero_def : (0 : Vec3) = ⟨0, 0, 0⟩ := rfl

theorem Vec3.add_def (a b : Vec3) : a + b = ⟨a.x + b.x, a.y + b.y, a.z + b.z⟩ := rfl

theorem Vec3.sub_def (a b : Vec3) : a - b = ⟨a.x - b.x, a.y - b.y, a.z - b.z⟩ := rfl

theorem Vec3.neg_def (a : Vec3) : -a = ⟨-a.x, -a.y, -a.z⟩ := rfl

theorem Vec3.smul_def (c : ℝ) (a : Vec3) : c • a = ⟨c * a.x, c * a.y, c * a.z⟩ := rfl

theorem SpatialVec.negParts_def (s : SpatialVec) : -s = ⟨-s.torque, -s.force⟩ := rfl

/-! ## C4: canonicalisation determinism -/

/-- Claim C4 as stated is false: when the outer ids of a quad coincide but
the middle ids differ, the quad and its reversal canonicalise to different
keys, and the torsion catalog can yield different entries for the two
argument orders. -/
theorem c4_counterexample :
    canonQuad 1 2 3 1 ≠ canonQuad 1 3 2 1
    ∧ getBondTorsion quadDemoMaps 1 2 3 1 ≠ getBondTorsion quadDemoMaps 1 3 2 1 := by
  constructor
  · intro h
    simp only [canonQuad] at h
    norm_num [Prod.ext_iff] at h
  · intro h
    simp only [getBondTorsion, quadDemoMaps, canonQuad] at h
    norm_num [Prod.ext_iff] at h
    exact Option.noConfusion h

/-- Claim C4 (amended): the pair and triple canonical keys are invariant
under reversal for all class ids, hence `getBondStretch` and `getBondBend`
are symmetric; the quad key is invariant under reversal — and
`getBondTorsion` symmetric — whenever the outer ids differ or the two
middle ids coincide (when the outer ids are equal and the middles differ,
the quad and its reversal are distinct fixed points of `canonicalize`). -/
theorem c4_thm (m : ForceFieldMaps) (c1 c2 c3 c4 : ℤ) :
    (canonPair c1 c2 = canonPair c2 c1
      ∧ getBondStretch m c1 c2 = getBondStretch m c2 c1)
    ∧ (canonTriple c1 c2 c3 = canonTriple c3 c2 c1
      ∧ getBondBend m c1 c2 c3 = getBondBend m c3 c2 c1)
    ∧ ((c1 ≠ c4 ∨ c2 = c3) →
      canonQuad c1 c2 c3 c4 = canonQuad c4 c3 c2 c1
      ∧ getBondTorsion m c1 c2 c3 c4 = getBondTorsion m c4 c3 c2 c1) := by
  have hp : canonPair c1 c2 = canonPair c2 c1 := by
    unfold canonPair
    split_ifs <;> simp only [Prod.mk.injEq, true_and, and_true] <;> omega
  have ht : canonTriple c1 c2 c3 = canonTriple c3 c2 c1 := by
    unfold canonTriple
    split_ifs <;> simp only [Prod.mk.injEq, true_and, and_true] <;> omega
  refine ⟨⟨hp, ?_⟩, ⟨ht, ?_⟩, fun h => ?_⟩
  · unfold getBondStretch; rw [hp]
  · unfold getBondBend; rw [ht]
  · have hq : canonQuad c1 c2 c3 c4 = canonQuad c4 c3 c2 c1 := by
      unfold canonQuad
      rcases h with h | h <;> split_ifs <;> simp only [Prod.mk.injEq, true_and, and_true] <;> omega
    exact ⟨hq, by unfold getBondTorsion; rw [hq]⟩

/-- Witness for C4 at the quad `(1, 2, 3, 4)`, whose outer ids differ. -/
theorem c4_witness :
    canonQuad 1 2 3 4 = canonQuad 4 3 2 1
    ∧ getBondTorsion quadDemoMaps 1 2 3 4 = getBondTorsion quadDemoMaps 4 3 2 1 :=
  (c4_thm quadDemoMaps 1 2 3 4).2.2 (Or.inl (by norm_num))

/-! ## C5: mixing-rule identity on like pairs -/

theorem arithmeticMean_self (a : ℝ) : arithmeticMean a a = a := by
  unfold arithmeticMean; ring

theorem geometricMean_self (a : ℝ) (h : 0 ≤ a) : geometricMean a a = a := by
  unfold geometricMean; exact Real.sqrt_mul_self h

theorem harmonicMean_self (a : ℝ) (h : a ≠ 0) : harmonicMean a a = a := by
  unfold harmonicMean
  have h2 : a + a ≠ 0 := by intro hc; apply h; linarith
  field_simp
  ring

theorem cubicMean_self (a : ℝ) (h : a ≠ 0) : cubicMean a a = a := by
  unfold cubicMean
  have h2 : a * a + a * a ≠ 0 := by
    intro hc
    apply h
    have ha : a * a = 0 := by nlinarith [mul_self_nonneg a]
    exact mul_self_eq_zero.mp ha
  field_simp
  ring

/-- The sixth real root of the sixth power, in the shape the combining
rules produce it. -/
theorem rpow_six_root (r : ℝ) (h : 0 ≤ r) : (r * r * r * (r * r * r)) ^ oo6 = r := by
  have h6 : r * r * r * (r * r * r) = r ^ (6 : ℕ) := by ring
  rw [h6, ← Real.rpow_natCast r 6, ← Real.rpow_mul h]
  norm_num [oo6]

/-- The thirteenth real root of the thirteenth power. -/
theorem rpow_thirteen_root (a : ℝ) (h : 0 ≤ a) : (a ^ oo13) ^ (13 : ℝ) = a := by
  rw [← Real.rpow_mul h]
  norm_num [oo13]

/-- Claim C5 as stated (all `r ≥ 0`, `eps ≥ 0`) is false: at the boundary
point `r = 0`, `eps = 1` the Waldman-Hagler rule divides `0` by `0` and
returns well depth `0`, not `eps = 1`. -/
theorem c5_counterexample : vdwCombineWaldmanHagler 0 0 1 1 ≠ (0, 1) := by
  have h : (vdwCombineWaldmanHagler 0 0 1 1).2 = 0 := by
    show geometricMean (1 * (0 * 0 * 0 * (0 * 0 * 0))) (1 * (0 * 0 * 0 * (0 * 0 * 0)))
        / arithmeticMean (0 * 0 * 0 * (0 * 0 * 0)) (0 * 0 * 0 * (0 * 0 * 0)) = 0
    norm_num [geometricMean, arithmeticMean]
  intro hEq
  rw [hEq] at h
  norm_num at h

/-- Claim C5 (amended): for every vdW radius `r > 0` and well depth
`eps > 0` (strictly positive rather than merely nonnegative), each of the
five mixing rules maps the like pair `(r, r, eps, eps)` to exactly
`(r, eps)`, and `applyMixingRule` stores `dmin = 2 * r` for that pair. -/
theorem c5_thm (r e : ℝ) (hr : 0 < r) (he : 0 < e) :
    vdwCombineLorentzBerthelot r r e e = (r, e)
    ∧ vdwCombineJorgensen r r e e = (r, e)
    ∧ vdwCombineHalgrenHHG r r e e = (r, e)
    ∧ vdwCombineWaldmanHagler r r e e = (r, e)
    ∧ vdwCombineKong r r e e = (r, e)
    ∧ applyMixingRule r r e e = (2 * r, e) := by
  have hr0 : (0 : ℝ) ≤ r := le_of_lt hr
  have he0 : (0 : ℝ) ≤ e := le_of_lt he
  have hr6pos : (0 : ℝ) < r * r * r * (r * r * r) := by positivity
  have hr6ne : r * r * r * (r * r * r) ≠ 0 := ne_of_gt hr6pos
  have her6 : (0 : ℝ) ≤ e * (r * r * r * (r * r * r)) := by positivity
  have hWH : vdwCombineWaldmanHagler r r e e = (r, e) := by
    unfold vdwCombineWaldmanHagler
    simp only [arithmeticMean_self, geometricMean_self _ her6, rpow_six_root r hr0,
        mul_div_assoc, div_self hr6ne, mul_one]
  refine ⟨?_, ?_, ?_, hWH, ?_, ?_⟩
  · unfold vdwCombineLorentzBerthelot
    rw [arithmeticMean_self, geometricMean_self e he0]
  · unfold vdwCombineJorgensen
    rw [geometricMean_self r hr0, geometricMean_self e he0]
  · unfold vdwCombineHalgrenHHG
    rw [cubicMean_self r (ne_of_gt hr)]
    unfold hhgMean
    rw [harmonicMean_self e (ne_of_gt he), geometricMean_self e he0,
        harmonicMean_self e (ne_of_gt he)]
  · unfold vdwCombineKong
    have h12 : (0 : ℝ) ≤ e * (r * r * r * (r * r * r) * (r * r * r * (r * r * r))) := by
      positivity
    have ht : e * (r * r * r * (r * r * r) * (r * r * r * (r * r * r)))
        / (e * (r * r * r * (r * r * r))) = r * r * r * (r * r * r) := by
      field_simp
      ring
    simp only [arithmeticMean_self, geometricMean_self _ her6, rpow_thirteen_root _ h12,
        ht, rpow_six_root r hr0, mul_div_assoc, div_self hr6ne, mul_one]
  · unfold applyMixingRule
    rw [hWH]

/-- Witness for C5 at `r = eps = 1`. -/
theorem c5_witness :
    vdwCombineLorentzBerthelot 1 1 1 1 = (1, 1)
    ∧ vdwCombineJorgensen 1 1 1 1 = (1, 1)
    ∧ vdwCombineHalgrenHHG 1 1 1 1 = (1, 1)
    ∧ vdwCombineWaldmanHagler 1 1 1 1 = (1, 1)
    ∧ vdwCombineKong 1 1 1 1 = (1, 1)
    ∧ applyMixingRule 1 1 1 1 = (2 * 1, 1) :=
  c5_thm 1 1 one_pos one_pos

/-! ## C3: the bond-bend lookup key -/

/-- Claim C3 as stated is false: for the chain entry `(m, t) = (1, 2)` of
atom `0` with classes `0 ↦ 1, 1 ↦ 2, 2 ↦ 3`, the stored bend is the
catalog entry at key `(1, 2, 3)` (self's class first), not the entry for
the triple with self's class in the middle position, `(2, 1, 3)`. -/
theorem c3_counterexample :
    resolvedBends bendDemoMaps classDemo 0 [(1, 2)]
      ≠ [bendDemoMaps.bondBend (canonTriple (classDemo 1) (classDemo 0) (classDemo 2))] := by
  intro h
  simp only [resolvedBends, List.map_cons, List.map_nil, getBondBend, bendDemoMaps,
    classDemo, canonTriple, List.cons.injEq, and_true] at h
  norm_num [Prod.ext_iff] at h
  exact Option.noConfusion h

/-- Claim C3 (amended): the bend stored at index `i` of `a.bend` is the
catalog entry for the canonical class triple
`(class of a, class of m, class of t)` of the chain entry `(m, t)` at the
same index of `xbond13` — so the fixed middle position of the lookup key
holds the class of the chain's central atom `m` (the vertex of the bend),
with self's class at an outer position, not in the middle. -/
theorem c3_thm (m : ForceFieldMaps) (classOf : ℕ → ℤ) (a : ℕ)
    (xb13 : List (ℕ × ℕ)) (i : ℕ) :
    (resolvedBends m classOf a xb13).get? i
      = (xb13.get? i).map
          (fun p => m.bondBend (canonTriple (classOf a) (classOf p.1) (classOf p.2)))
    ∧ ∀ p : ℕ × ℕ,
        (canonTriple (classOf a) (classOf p.1) (classOf p.2)).2.1 = classOf p.1 := by
  constructor
  · simp only [resolvedBends, List.get?_map, getBondBend]
  · intro p
    unfold canonTriple
    split_ifs <;> rfl

/-! ## C10: cluster id 0 is reserved -/

/-- Claim C10: the subsystem constructor creates the internal
"free atoms and groups" cluster with id 0 before any user call;
`addCluster` always returns the current cluster count (so ids are dense
and strictly increasing); hence `createCluster` on any state that already
holds the reserved cluster returns an id `≥ 1`. -/
theorem c10_thm :
    (initClusters.clusters.length = 1
      ∧ initClusters.clusters.get? 0 = some ⟨0, "free atoms and groups"⟩)
    ∧ (∀ (st : ClusterArray) (c : Cluster),
        (addCluster st c).1 = st.clusters.length
        ∧ (addCluster st c).2.clusters.length = st.clusters.length + 1)
    ∧ (∀ (st : ClusterArray) (nm : String),
        1 ≤ st.clusters.length → 1 ≤ (createCluster st nm).1) := by
  refine ⟨⟨rfl, rfl⟩, fun st c => ⟨rfl, ?_⟩, fun st nm h => ?_⟩
  · simp [addCluster]
  · simpa [createCluster, addCluster] using h

/-- Witness for C10: the freshly constructed subsystem satisfies the
hypothesis, and its first user-created cluster gets id 1. -/
theorem c10_witness :
    1 ≤ initClusters.clusters.length ∧ 1 ≤ (createCluster initClusters "demo").1 :=
  ⟨by decide, (c10_thm.2.2) initClusters "demo" (by decide)⟩

/-! ## C1: the non-bonded pair contribution -/

/-- Claim C1: for a non-bonded cross-body atom pair, the energy the kernel
adds to the potential-energy accumulator is exactly
`e_C + e_V` with `e_C = coulombScale[a2] * K * q1 * q2 / d` and
`e_V = vdwScale[a2] * eps_ij * ((dmin_ij/d)^12 - 2 (dmin_ij/d)^6)`; the
force vector added to body `b2`'s accumulator is
`((f_C + f_V)/d^2) * r` with `f_C = e_C` and
`f_V = 12 * vdwScale[a2] * eps_ij * ((dmin_ij/d)^12 - (dmin_ij/d)^6)` and
`r = pos(a2) - pos(a1)`; and the force added to body `b1`'s accumulator
is its exact negation, so the per-pair linear contributions cancel. -/
theorem c1_thm (q1 q2 coulombScaleA2 vdwScaleA2 dij eij : ℝ)
    (a1PosG a2PosG a1StationG a2StationG : Vec3) :
    let out := nonbondedPairKernel (CoulombFac * q1) q2 coulombScaleA2 vdwScaleA2 dij eij
      a1PosG a2PosG a1StationG a2StationG
    let r := a2PosG - a1PosG
    let d := Real.sqrt r.normSqr
    let eC := coulombScaleA2 * CoulombFac * q1 * q2 / d
    let eV := vdwScaleA2 * eij * ((dij / d) ^ (12 : ℕ) - 2 * (dij / d) ^ (6 : ℕ))
    let fV := 12 * (vdwScaleA2 * eij) * ((dij / d) ^ (12 : ℕ) - (dij / d) ^ (6 : ℕ))
    out.energy = eC + eV
    ∧ out.addToB2.force = ((eC + fV) / d ^ (2 : ℕ)) • r
    ∧ out.addToB1.force = -out.addToB2.force := by
  dsimp only [nonbondedPairKernel]
  refine ⟨?_, ?_, rfl⟩
  · ring
  · show (_ * _) • (a2PosG - a1PosG) = (_ / _) • (a2PosG - a1PosG)
    congr 1
    ring

/-! ## C6: the scale/unscale round trip -/

/-- Pointwise value of an assignment loop: the written value on the listed
positions, the old value elsewhere. -/
theorem writeList_apply (xs : List ℕ) (val : ℝ) (f : ℕ → ℝ) (j : ℕ) :
    writeList xs val f j = if j ∈ xs then val else f j := by
  induction xs generalizing f with
  | nil => simp [writeList]
  | cons i rest ih =>
    simp only [writeList, ih, List.mem_cons]
    by_cases hjr : j ∈ rest
    · simp [hjr]
    · by_cases hji : j = i
      · simp [hjr, hji, Function.update_apply]
      · simp [hjr, hji, Function.update_apply]

/-- Claim C6: for any cross-body bond lists and any scale-factor settings,
running `unscaleBondedAtoms` after `scaleBondedAtoms` on scratch vectors
that start at the identity (all entries 1) leaves both vectors at 1 on
every index. -/
theorem c6_thm (sf : ScaleFactors) (a : XBonds) (j : ℕ) :
    (unscaleBondedAtoms sf a
        (scaleBondedAtoms sf a (fun _ => 1) (fun _ => 1)).1
        (scaleBondedAtoms sf a (fun _ => 1) (fun _ => 1)).2).1 j = 1
    ∧ (unscaleBondedAtoms sf a
        (scaleBondedAtoms sf a (fun _ => 1) (fun _ => 1)).1
        (scaleBondedAtoms sf a (fun _ => 1) (fun _ => 1)).2).2 j = 1 := by
  dsimp only [scaleBondedAtoms, unscaleBondedAtoms]
  by_cases h14 : sf.vdwScale14 ≠ 1 ∨ sf.coulombScale14 ≠ 1 <;>
    by_cases h15 : sf.vdwScale15 ≠ 1 ∨ sf.coulombScale15 ≠ 1 <;>
      simp only [h14, h15, if_true, if_false, writeList_apply] <;>
        constructor <;> split_ifs <;> rfl

/-! ## C7: `addBond` canonicalisation and duplicate refusal -/

/-- `List.getD` after `List.set` at the written index. -/
theorem getD_set_eq {α : Type} (x d : α) :
    ∀ (l : List α) (i : ℕ), i < l.length → (l.set i x).getD i d = x := by
  intro l
  induction l with
  | nil => intro i h; simp at h
  | cons a rest ih =>
    intro i h
    match i with
    | 0 => rfl
    | n + 1 =>
      simp only [List.set_cons_succ, List.getD_cons_succ]
      exact ih n (by simpa using h)

/-- `List.getD` after `List.set` at a different index. -/
theorem getD_set_ne {α : Type} (x d : α) :
    ∀ (l : List α) (i j : ℕ), i ≠ j → (l.set i x).getD j d = l.getD j d := by
  intro l
  induction l with
  | nil => intro i j _; simp
  | cons a rest ih =>
    intro i j hij
    match i, j with
    | 0, 0 => exact absurd rfl hij
    | 0, m + 1 => rfl
    | n + 1, 0 => rfl
    | n + 1, m + 1 =>
      simp only [List.set_cons_succ, List.getD_cons_succ]
      exact ih n m (by omega)

/-- The bond scan finds an absent pair exactly at the end of the array. -/
theorem findBondIdx_append_self (p : ℕ × ℕ) (l : List (ℕ × ℕ)) (h : p ∉ l) :
    findBondIdx p (l ++ [p]) = some l.length := by
  induction l with
  | nil => simp [findBondIdx]
  | cons q rest ih =>
    have hqp : q ≠ p := fun hc => h (hc ▸ List.mem_cons_self q rest)
    have hrest : p ∉ rest := fun hm => h (List.mem_cons_of_mem q hm)
    simp only [List.cons_append, findBondIdx, if_neg hqp, List.append_eq, ih hrest,
      List.length_cons]
    rfl

/-- Claim C7: for distinct valid atom ids, `addBond` stores the bond with
the lower id first, appends each endpoint to the other's `bond12` exactly
once, and a subsequent duplicate call with the arguments swapped returns
the pre-existing bond id while leaving the graph unchanged. -/
theorem c7_thm (g : MolGraph) (a b : ℕ) (hva : g.isValidAtom a) (hvb : g.isValidAtom b)
    (hab : a ≠ b)
    (h1 : ¬g.isBondedTo (min a b) (max a b))
    (h2 : ¬g.isBondedTo (max a b) (min a b))
    (h3 : (min a b, max a b) ∉ g.bonds) :
    ∃ g' : MolGraph,
      addBond g a b = some (g.bonds.length, g')
      ∧ min a b < max a b
      ∧ g'.bonds = g.bonds ++ [(min a b, max a b)]
      ∧ g'.bond12 (min a b) = g.bond12 (min a b) ++ [max a b]
      ∧ g'.bond12 (max a b) = g.bond12 (max a b) ++ [min a b]
      ∧ (g'.bond12 (min a b)).count (max a b) = 1
      ∧ (g'.bond12 (max a b)).count (min a b) = 1
      ∧ addBond g' b a = some (g.bonds.length, g') := by
  have hmM : min a b < max a b := min_lt_max.mpr hab
  have hmMne : min a b ≠ max a b := ne_of_lt hmM
  have hlenm : min a b < g.atoms.length := lt_of_le_of_lt (min_le_left a b) hva
  have hlenM : max a b < g.atoms.length := by
    rcases max_choice a b with h | h <;> rw [h]
    · exact hva
    · exact hvb
  set A2 : List (List ℕ) := (g.atoms.set (min a b) (g.bond12 (min a b) ++ [max a b])).set
    (max a b) (g.bond12 (max a b) ++ [min a b]) with hA2
  have h1m : max a b ∉ g.bond12 (min a b) := h1
  have h2M : min a b ∉ g.bond12 (max a b) := h2
  have hb12m : (⟨A2, g.bonds ++ [(min a b, max a b)]⟩ : MolGraph).bond12 (min a b)
      = g.bond12 (min a b) ++ [max a b] := by
    show A2.getD (min a b) [] = _
    rw [hA2, getD_set_ne, getD_set_eq]
    · exact hlenm
    · exact Ne.symm hmMne
  have hb12M : (⟨A2, g.bonds ++ [(min a b, max a b)]⟩ : MolGraph).bond12 (max a b)
      = g.bond12 (max a b) ++ [min a b] := by
    show A2.getD (max a b) [] = _
    rw [hA2, getD_set_eq]
    simpa [List.length_set] using hlenM
  have hAdd : addBond g a b
      = some (g.bonds.length, ⟨A2, g.bonds ++ [(min a b, max a b)]⟩) := by
    unfold addBond
    rw [if_neg (not_not_intro ⟨hva, hvb⟩), if_neg hab]
    dsimp only
    rw [if_neg h1, hA2]
  have hvB2 : (⟨A2, g.bonds ++ [(min a b, max a b)]⟩ : MolGraph).isValidAtom b := by
    show b < A2.length
    rw [hA2]
    simpa [List.length_set] using hvb
  have hvA2 : (⟨A2, g.bonds ++ [(min a b, max a b)]⟩ : MolGraph).isValidAtom a := by
    show a < A2.length
    rw [hA2]
    simpa [List.length_set] using hva
  have hmem : (⟨A2, g.bonds ++ [(min a b, max a b)]⟩ : MolGraph).isBondedTo (min a b)
      (max a b) := by
    show max a b ∈ (⟨A2, g.bonds ++ [(min a b, max a b)]⟩ : MolGraph).bond12 (min a b)
    rw [hb12m]
    exact List.mem_append_right _ (List.mem_singleton_self _)
  have hDup : addBond (⟨A2, g.bonds ++ [(min a b, max a b)]⟩ : MolGraph) b a
      = some (g.bonds.length, ⟨A2, g.bonds ++ [(min a b, max a b)]⟩) := by
    unfold addBond
    rw [if_neg (not_not_intro ⟨hvB2, hvA2⟩), if_neg (Ne.symm hab)]
    dsimp only
    rw [min_comm b a, max_comm b a, if_pos hmem]
    show (findBondIdx (min a b, max a b) (g.bonds ++ [(min a b, max a b)])).map _ = _
    rw [findBondIdx_append_self _ _ h3]
    rfl
  refine ⟨⟨A2, g.bonds ++ [(min a b, max a b)]⟩, hAdd, hmM, rfl, hb12m, hb12M, ?_, ?_, hDup⟩
  · rw [hb12m, List.count_append, List.count_eq_zero.mpr h1m]
    simp
  · rw [hb12M, List.count_append, List.count_eq_zero.mpr h2M]
    simp

/-- Witness for C7: adding a bond (5, 2) to a six-atom bond-free graph and
then adding (2, 5), per the specification's concrete scenario 6. -/
theorem c7_witness :
    ∃ g' : MolGraph,
      addBond molDemo 5 2 = some (molDemo.bonds.length, g')
      ∧ min 5 2 < max 5 2
      ∧ g'.bonds = molDemo.bonds ++ [(min 5 2, max 5 2)]
      ∧ g'.bond12 (min 5 2) = molDemo.bond12 (min 5 2) ++ [max 5 2]
      ∧ g'.bond12 (max 5 2) = molDemo.bond12 (max 5 2) ++ [min 5 2]
      ∧ (g'.bond12 (min 5 2)).count (max 5 2) = 1
      ∧ (g'.bond12 (max 5 2)).count (min 5 2) = 1
      ∧ addBond g' 2 5 = some (molDemo.bonds.length, g') :=
  c7_thm molDemo 5 2 (by decide) (by decide) (by decide) (by decide) (by decide) (by decide)

/-! ## C9: `defineBondTorsion` error semantics -/

/-- Claim C9: `defineBondTorsion` fails — leaving the torsion catalog
unchanged, since every check precedes the single `std::map::insert` and a
failed insert does not modify the map — exactly when some supplied term is
out of range, two supplied terms share a periodicity, a class id is not a
defined atom class, no term is supplied, or the canonical quad is already
defined; otherwise it inserts the `BondTorsion` holding exactly the
supplied terms. -/
theorem c9_thm (validClass : ℤ → Bool) (tors : TorsionMap) (c1 c2 c3 c4 : ℤ)
    (p1 : ℤ) (a1 f1 : ℝ) (p2 : ℤ) (a2 f2 : ℝ) (p3 : ℤ) (a3 f3 : ℝ) :
    (defineBondTorsion validClass tors c1 c2 c3 c4 p1 a1 f1 p2 a2 f2 p3 a3 f3 = .error ()
      ↔ torsionDefFails validClass tors c1 c2 c3 c4 p1 a1 f1 p2 a2 f2 p3 a3 f3)
    ∧ (¬torsionDefFails validClass tors c1 c2 c3 c4 p1 a1 f1 p2 a2 f2 p3 a3 f3 →
      defineBondTorsion validClass tors c1 c2 c3 c4 p1 a1 f1 p2 a2 f2 p3 a3 f3
        = .ok (Function.update tors (canonQuad c1 c2 c3 c4) (some (
            (if p1 ≠ -1 then [mkTorsionTerm p1 a1 f1] else [])
            ++ (if p2 ≠ -1 then [mkTorsionTerm p2 a2 f2] else [])
            ++ (if p3 ≠ -1 then [mkTorsionTerm p3 a3 f3] else []))))) := by
  have hcases : (defineBondTorsion validClass tors c1 c2 c3 c4 p1 a1 f1 p2 a2 f2 p3 a3 f3
        = .error ()
      ∧ torsionDefFails validClass tors c1 c2 c3 c4 p1 a1 f1 p2 a2 f2 p3 a3 f3)
      ∨ (¬torsionDefFails validClass tors c1 c2 c3 c4 p1 a1 f1 p2 a2 f2 p3 a3 f3
      ∧ defineBondTorsion validClass tors c1 c2 c3 c4 p1 a1 f1 p2 a2 f2 p3 a3 f3
        = .ok (Function.update tors (canonQuad c1 c2 c3 c4) (some (
            (if p1 ≠ -1 then [mkTorsionTerm p1 a1 f1] else [])
            ++ (if p2 ≠ -1 then [mkTorsionTerm p2 a2 f2] else [])
            ++ (if p3 ≠ -1 then [mkTorsionTerm p3 a3 f3] else []))))) := by
    unfold defineBondTorsion
    by_cases h1 : ¬validClass c1 = true
    · rw [if_pos h1]
      refine Or.inl ⟨rfl, ?_⟩
      unfold torsionDefFails
      exact ((fun x => Or.inr (Or.inr (Or.inr (Or.inr (Or.inr (Or.inr (Or.inl x))))))) (fun hand => h1 hand.1))
    rw [if_neg h1]
    by_cases h2 : ¬validClass c2 = true
    · rw [if_pos h2]
      refine Or.inl ⟨rfl, ?_⟩
      unfold torsionDefFails
      exact ((fun x => Or.inr (Or.inr (Or.inr (Or.inr (Or.inr (Or.inr (Or.inl x))))))) (fun hand => h2 hand.2.1))
    rw [if_neg h2]
    by_cases h3 : ¬validClass c3 = true
    · rw [if_pos h3]
      refine Or.inl ⟨rfl, ?_⟩
      unfold torsionDefFails
      exact ((fun x => Or.inr (Or.inr (Or.inr (Or.inr (Or.inr (Or.inr (Or.inl x))))))) (fun hand => h3 hand.2.2.1))
    rw [if_neg h3]
    by_cases h4 : ¬validClass c4 = true
    · rw [if_pos h4]
      refine Or.inl ⟨rfl, ?_⟩
      unfold torsionDefFails
      exact ((fun x => Or.inr (Or.inr (Or.inr (Or.inr (Or.inr (Or.inr (Or.inl x))))))) (fun hand => h4 hand.2.2.2))
    rw [if_neg h4]
    by_cases h5 : p1 ≠ -1 ∧ ¬(1 ≤ p1 ∧ p1 ≤ 6)
    · rw [if_pos h5]
      refine Or.inl ⟨rfl, ?_⟩
      unfold torsionDefFails
      exact ((Or.inl) ⟨h5.1, Or.inl h5.2⟩)
    rw [if_neg h5]
    by_cases h6 : p1 ≠ -1 ∧ ¬(0 ≤ a1)
    · rw [if_pos h6]
      refine Or.inl ⟨rfl, ?_⟩
      unfold torsionDefFails
      exact ((Or.inl) ⟨h6.1, Or.inr (Or.inl h6.2)⟩)
    rw [if_neg h6]
    by_cases h7 : p1 ≠ -1 ∧ ¬(0 ≤ f1 ∧ f1 ≤ 180)
    · rw [if_pos h7]
      refine Or.inl ⟨rfl, ?_⟩
      unfold torsionDefFails
      exact ((Or.inl) ⟨h7.1, Or.inr (Or.inr h7.2)⟩)
    rw [if_neg h7]
    by_cases h8 : p1 ≠ -1 ∧ (p2 = p1 ∨ p3 = p1)
    · rw [if_pos h8]
      refine Or.inl ⟨rfl, ?_⟩
      unfold torsionDefFails
      exact (h8.2.elim (fun he => (fun x => Or.inr (Or.inr (Or.inr (Or.inl x)))) ⟨h8.1, he⟩) (fun he => (fun x => Or.inr (Or.inr (Or.inr (Or.inr (Or.inl x))))) ⟨h8.1, he⟩))
    rw [if_neg h8]
    by_cases h9 : p2 ≠ -1 ∧ ¬(1 ≤ p2 ∧ p2 ≤ 6)
    · rw [if_pos h9]
      refine Or.inl ⟨rfl, ?_⟩
      unfold torsionDefFails
      exact ((fun x => Or.inr (Or.inl x)) ⟨h9.1, Or.inl h9.2⟩)
    rw [if_neg h9]
    by_cases h10 : p2 ≠ -1 ∧ ¬(0 ≤ a2)
    · rw [if_pos h10]
      refine Or.inl ⟨rfl, ?_⟩
      unfold torsionDefFails
      exact ((fun x => Or.inr (Or.inl x)) ⟨h10.1, Or.inr (Or.inl h10.2)⟩)
    rw [if_neg h10]
    by_cases h11 : p2 ≠ -1 ∧ ¬(0 ≤ f2 ∧ f2 ≤ 180)
    · rw [if_pos h11]
      refine Or.inl ⟨rfl, ?_⟩
      unfold torsionDefFails
      exact ((fun x => Or.inr (Or.inl x)) ⟨h11.1, Or.inr (Or.inr h11.2)⟩)
    rw [if_neg h11]
    by_cases h12 : p2 ≠ -1 ∧ p3 = p2
    · rw [if_pos h12]
      refine Or.inl ⟨rfl, ?_⟩
      unfold torsionDefFails
      exact ((fun x => Or.inr (Or.inr (Or.inr (Or.inr (Or.inr (Or.inl x)))))) h12)
    rw [if_neg h12]
    by_cases h13 : p3 ≠ -1 ∧ ¬(1 ≤ p3 ∧ p3 ≤ 6)
    · rw [if_pos h13]
      refine Or.inl ⟨rfl, ?_⟩
      unfold torsionDefFails
      exact ((fun x => Or.inr (Or.inr (Or.inl x))) ⟨h13.1, Or.inl h13.2⟩)
    rw [if_neg h13]
    by_cases h14 : p3 ≠ -1 ∧ ¬(0 ≤ a3)
    · rw [if_pos h14]
      refine Or.inl ⟨rfl, ?_⟩
      unfold torsionDefFails
      exact ((fun x => Or.inr (Or.inr (Or.inl x))) ⟨h14.1, Or.inr (Or.inl h14.2)⟩)
    rw [if_neg h14]
    by_cases h15 : p3 ≠ -1 ∧ ¬(0 ≤ f3 ∧ f3 ≤ 180)
    · rw [if_pos h15]
      refine Or.inl ⟨rfl, ?_⟩
      unfold torsionDefFails
      exact ((fun x => Or.inr (Or.inr (Or.inl x))) ⟨h15.1, Or.inr (Or.inr h15.2)⟩)
    rw [if_neg h15]
    by_cases h16 : p1 = -1 ∧ p2 = -1 ∧ p3 = -1
    · rw [if_pos h16]
      refine Or.inl ⟨rfl, ?_⟩
      unfold torsionDefFails
      exact ((fun x => Or.inr (Or.inr (Or.inr (Or.inr (Or.inr (Or.inr (Or.inr (Or.inl x)))))))) h16)
    rw [if_neg h16]
    rcases htors : tors (canonQuad c1 c2 c3 c4) with _ | bt <;> simp only [htors]
    · refine Or.inr ⟨?_, by trivial⟩
      intro hf
      unfold torsionDefFails at hf
      rcases hf with hf | hf | hf | hf | hf | hf | hf | hf | hf
      · rcases hf with ⟨hp, hb | hb | hb⟩
        · exact h5 ⟨hp, hb⟩
        · exact h6 ⟨hp, hb⟩
        · exact h7 ⟨hp, hb⟩
      · rcases hf with ⟨hp, hb | hb | hb⟩
        · exact h9 ⟨hp, hb⟩
        · exact h10 ⟨hp, hb⟩
        · exact h11 ⟨hp, hb⟩
      · rcases hf with ⟨hp, hb | hb | hb⟩
        · exact h13 ⟨hp, hb⟩
        · exact h14 ⟨hp, hb⟩
        · exact h15 ⟨hp, hb⟩
      · exact h8 ⟨hf.1, Or.inl hf.2⟩
      · exact h8 ⟨hf.1, Or.inr hf.2⟩
      · exact h12 hf
      · exact hf ⟨not_not.mp h1, not_not.mp h2, not_not.mp h3, not_not.mp h4⟩
      · exact h16 hf
      · rw [htors] at hf
        simp at hf
    · refine Or.inl ⟨by trivial, ?_⟩
      unfold torsionDefFails
      refine Or.inr (Or.inr (Or.inr (Or.inr (Or.inr (Or.inr (Or.inr (Or.inr ?_)))))))
      rw [htors]
      rfl
  refine ⟨⟨fun he => ?_, fun hf => ?_⟩, fun hnf => ?_⟩
  · rcases hcases with ⟨_, hfl⟩ | ⟨_, hok⟩
    · exact hfl
    · rw [hok] at he
      exact Except.noConfusion he
  · rcases hcases with ⟨herr, _⟩ | ⟨hnf2, _⟩
    · exact herr
    · exact absurd hf hnf2
  · rcases hcases with ⟨_, hfl⟩ | ⟨_, hok⟩
    · exact absurd hfl hnf
    · exact hok

/-- Witness for C9: a single well-formed term (periodicity 2, amplitude 1,
phase 0) on a fresh catalog is inserted successfully. -/
theorem c9_witness :
    defineBondTorsion (fun _ => true) (fun _ => none) 1 1 1 1 2 1 0 (-1) 0 0 (-1) 0 0
      = .ok (Function.update (fun _ => none) (canonQuad 1 1 1 1) (some (
          (if (2 : ℤ) ≠ -1 then [mkTorsionTerm 2 1 0] else [])
          ++ (if (-1 : ℤ) ≠ -1 then [mkTorsionTerm (-1) 0 0] else [])
          ++ (if (-1 : ℤ) ≠ -1 then [mkTorsionTerm (-1) 0 0] else [])))) :=
  (c9_thm (fun _ => true) (fun _ => none) 1 1 1 1 2 1 0 (-1) 0 0 (-1) 0 0).2
    (by norm_num [torsionDefFails])

/-! ## C8: degenerate branches of the periodic-torsion kernel -/

theorem Vec3.sub_self (a : Vec3) : a - a = 0 := by
  ext <;> simp [Vec3.sub_def, Vec3.zero_def]

theorem Vec3.dot_zero_zero : Vec3.dot 0 0 = (0 : ℝ) := by
  simp [Vec3.dot, Vec3.zero_def]

theorem Vec3.neg_zero_eq : -(0 : Vec3) = 0 := by
  ext <;> simp [Vec3.neg_def, Vec3.zero_def]

theorem Vec3.cancel_four (a b : Vec3) : a + -a + (-b + b) = 0 := by
  ext <;> simp [Vec3.add_def, Vec3.neg_def, Vec3.zero_def]

/-- Claim C8: in the periodic-torsion kernel, (i) if either plane normal
`T = R x V` or `U = V x S` has zero (squared) norm then the returned
energy is 0 and all four forces are exactly zero; and (ii) when the axis
atoms coincide (`x = y`) the kernel sets `f_x = -f_r` and `f_y = -f_s`,
so the four returned forces sum exactly to zero. -/
theorem c8_thm (terms : List TorsionTerm) (rG xG yG sG : Vec3) :
    ((Vec3.normSqr (Vec3.cross (xG - rG) (torsionAxis rG xG yG sG)) = 0
      ∨ Vec3.normSqr (Vec3.cross (torsionAxis rG xG yG sG) (sG - yG)) = 0) →
      (periodic terms rG xG yG sG).pe = 0
      ∧ (periodic terms rG xG yG sG).rf = 0
      ∧ (periodic terms rG xG yG sG).xf = 0
      ∧ (periodic terms rG xG yG sG).yf = 0
      ∧ (periodic terms rG xG yG sG).sf = 0)
    ∧ (xG = yG →
      (periodic terms rG xG yG sG).xf = -(periodic terms rG xG yG sG).rf
      ∧ (periodic terms rG xG yG sG).yf = -(periodic terms rG xG yG sG).sf
      ∧ (periodic terms rG xG yG sG).rf + (periodic terms rG xG yG sG).xf
        + ((periodic terms rG xG yG sG).yf + (periodic terms rG xG yG sG).sf) = 0) := by
  constructor
  · intro h
    simp only [Vec3.normSqr] at h
    unfold periodic
    rw [if_pos h]
    exact ⟨rfl, rfl, rfl, rfl, rfl⟩
  · intro hxy
    subst hxy
    unfold periodic
    simp only [Vec3.sub_self, Vec3.dot_zero_zero]
    norm_num
    split_ifs with hdeg
    · refine ⟨?_, ?_, ?_⟩ <;>
        ext <;> simp [Vec3.neg_def, Vec3.add_def, Vec3.zero_def]
    · exact ⟨rfl, rfl, Vec3.cancel_four _ _⟩

/-- Witness for C8: a chain with the first bond parallel to the axis
(plane normal `T = 0`) yields zero energy and forces, and a chain with
coincident axis atoms returns forces that cancel in pairs. -/
theorem c8_witness :
    ((periodic [] ⟨2, 0, 0⟩ ⟨1, 0, 0⟩ ⟨0, 0, 0⟩ ⟨0, 0, 1⟩).pe = 0
      ∧ (periodic [] ⟨2, 0, 0⟩ ⟨1, 0, 0⟩ ⟨0, 0, 0⟩ ⟨0, 0, 1⟩).rf = 0
      ∧ (periodic [] ⟨2, 0, 0⟩ ⟨1, 0, 0⟩ ⟨0, 0, 0⟩ ⟨0, 0, 1⟩).xf = 0
      ∧ (periodic [] ⟨2, 0, 0⟩ ⟨1, 0, 0⟩ ⟨0, 0, 0⟩ ⟨0, 0, 1⟩).yf = 0
      ∧ (periodic [] ⟨2, 0, 0⟩ ⟨1, 0, 0⟩ ⟨0, 0, 0⟩ ⟨0, 0, 1⟩).sf = 0)
    ∧ ((periodic [] ⟨1, 0, 0⟩ ⟨0, 0, 0⟩ ⟨0, 0, 0⟩ ⟨0, 1, 0⟩).xf
        = -(periodic [] ⟨1, 0, 0⟩ ⟨0, 0, 0⟩ ⟨0, 0, 0⟩ ⟨0, 1, 0⟩).rf
      ∧ (periodic [] ⟨1, 0, 0⟩ ⟨0, 0, 0⟩ ⟨0, 0, 0⟩ ⟨0, 1, 0⟩).yf
        = -(periodic [] ⟨1, 0, 0⟩ ⟨0, 0, 0⟩ ⟨0, 0, 0⟩ ⟨0, 1, 0⟩).sf
      ∧ (periodic [] ⟨1, 0, 0⟩ ⟨0, 0, 0⟩ ⟨0, 0, 0⟩ ⟨0, 1, 0⟩).rf
        + (periodic [] ⟨1, 0, 0⟩ ⟨0, 0, 0⟩ ⟨0, 0, 0⟩ ⟨0, 1, 0⟩).xf
        + ((periodic [] ⟨1, 0, 0⟩ ⟨0, 0, 0⟩ ⟨0, 0, 0⟩ ⟨0, 1, 0⟩).yf
          + (periodic [] ⟨1, 0, 0⟩ ⟨0, 0, 0⟩ ⟨0, 0, 0⟩ ⟨0, 1, 0⟩).sf) = 0) :=
  ⟨(c8_thm [] ⟨2, 0, 0⟩ ⟨1, 0, 0⟩ ⟨0, 0, 0⟩ ⟨0, 0, 1⟩).1 (by
      left
      simp only [torsionAxis, Vec3.sub_def, Vec3.dot, Vec3.cross, Vec3.normSqr,
        Vec3.smul_def]
      norm_num [Real.sqrt_one]),
   (c8_thm [] ⟨1, 0, 0⟩ ⟨0, 0, 0⟩ ⟨0, 0, 0⟩ ⟨0, 1, 0⟩).2 rfl⟩

/-! ## C2: shortest-path exclusivity and symmetry of the derived
neighbour lists

Supporting lemmas: membership through the insertion sort, through one
visited-set expansion (`expandOne`) and through one whole stage
(`expandAll`); then the characterisation of each stage in terms of balls
of the bond graph. -/

theorem mem_insertBy {α : Type} (lt : α → α → Bool) (a z : α) (l : List α) :
    z ∈ insertBy lt a l ↔ z = a ∨ z ∈ l := by
  induction l with
  | nil => simp [insertBy]
  | cons b rest ih =>
    simp only [insertBy]
    split_ifs
    · simp [List.mem_cons]
    · simp only [List.mem_cons, ih]
      tauto

theorem mem_sortBy {α : Type} (lt : α → α → Bool) (z : α) (l : List α) :
    z ∈ sortBy lt l ↔ z ∈ l := by
  induction l with
  | nil => simp [sortBy]
  | cons b rest ih => simp [sortBy, mem_insertBy, ih]

theorem expandOne_fst_mem {π : Type} (rec : ℕ → π) (l : List ℕ) (vis : Finset ℕ)
    (acc : List π) (x : ℕ) :
    x ∈ (expandOne rec l vis acc).1 ↔ x ∈ vis ∨ x ∈ l := by
  induction l generalizing vis acc with
  | nil => simp [expandOne]
  | cons c rest ih =>
    simp only [expandOne]
    split_ifs with hc
    · rw [ih]
      simp only [List.mem_cons]
      constructor
      · rintro (h | h)
        · exact Or.inl h
        · exact Or.inr (Or.inr h)
      · rintro (h | rfl | h)
        · exact Or.inl h
        · exact Or.inl hc
        · exact Or.inr h
    · rw [ih]
      simp only [Finset.mem_insert, List.mem_cons]
      tauto

theorem expandOne_tails_mem {π : Type} (tailp : π → ℕ) (rec : ℕ → π)
    (hrec : ∀ c, tailp (rec c) = c) (l : List ℕ) (vis : Finset ℕ) (acc : List π) (x : ℕ) :
    x ∈ (expandOne rec l vis acc).2.map tailp
      ↔ x ∈ acc.map tailp ∨ (x ∈ l ∧ x ∉ vis) := by
  induction l generalizing vis acc with
  | nil => simp [expandOne]
  | cons c rest ih =>
    simp only [expandOne]
    split_ifs with hc
    · rw [ih]
      simp only [List.mem_cons]
      constructor
      · rintro (h | ⟨h1, h2⟩)
        · exact Or.inl h
        · exact Or.inr ⟨Or.inr h1, h2⟩
      · rintro (h | ⟨rfl | h1, h2⟩)
        · exact Or.inl h
        · exact absurd hc h2
        · exact Or.inr ⟨h1, h2⟩
    · rw [ih]
      simp only [List.map_append, List.map_cons, List.map_nil, hrec,
        List.mem_append, List.mem_singleton, Finset.mem_insert, List.mem_cons,
        List.mem_nil_iff, or_false]
      constructor
      · rintro ((h | rfl) | ⟨h1, h2⟩)
        · exact Or.inl h
        · exact Or.inr ⟨Or.inl rfl, hc⟩
        · exact Or.inr ⟨Or.inr h1, fun hv => h2 (Or.inr hv)⟩
      · rintro (h | ⟨rfl | h1, h2⟩)
        · exact Or.inl (Or.inl h)
        · exact Or.inl (Or.inr rfl)
        · by_cases hxc : x = c
          · exact Or.inl (Or.inr hxc)
          · exact Or.inr ⟨h1, fun hv => hv.elim hxc h2⟩

theorem expandOne_mem {π : Type} (rec : ℕ → π) (l : List ℕ) (vis : Finset ℕ)
    (acc : List π) (p : π) :
    p ∈ (expandOne rec l vis acc).2 → p ∈ acc ∨ ∃ c ∈ l, p = rec c := by
  induction l generalizing vis acc with
  | nil => intro h; exact Or.inl h
  | cons c rest ih =>
    simp only [expandOne]
    split_ifs with hc
    · intro h
      rcases ih _ _ h with h | ⟨d, hd, rfl⟩
      · exact Or.inl h
      · exact Or.inr ⟨d, List.mem_cons_of_mem _ hd, rfl⟩
    · intro h
      rcases ih _ _ h with h | ⟨d, hd, rfl⟩
      · rcases List.mem_append.mp h with h | h
        · exact Or.inl h
        · exact Or.inr ⟨c, List.mem_cons_self _ _, List.mem_singleton.mp h ▸ rfl⟩
      · exact Or.inr ⟨d, List.mem_cons_of_mem _ hd, rfl⟩

theorem expandAll_fst_mem {σ π : Type} (adj : ℕ → List ℕ) (tailf : σ → ℕ)
    (rec : σ → ℕ → π) (src : List σ) (vis : Finset ℕ) (acc : List π) (x : ℕ) :
    x ∈ (expandAll adj tailf rec src vis acc).1
      ↔ x ∈ vis ∨ ∃ s ∈ src, x ∈ adj (tailf s) := by
  induction src generalizing vis acc with
  | nil => simp [expandAll]
  | cons s rest ih =>
    simp only [expandAll]
    rw [ih, expandOne_fst_mem]
    simp only [List.mem_cons]
    constructor
    · rintro ((h | h) | ⟨t, ht, hx⟩)
      · exact Or.inl h
      · exact Or.inr ⟨s, Or.inl rfl, h⟩
      · exact Or.inr ⟨t, Or.inr ht, hx⟩
    · rintro (h | ⟨t, rfl | ht, hx⟩)
      · exact Or.inl (Or.inl h)
      · exact Or.inl (Or.inr hx)
      · exact Or.inr ⟨t, ht, hx⟩

theorem expandAll_tails_mem {σ π : Type} (tailp : π → ℕ) (adj : ℕ → List ℕ)
    (tailf : σ → ℕ) (rec : σ → ℕ → π) (hrec : ∀ s c, tailp (rec s c) = c)
    (src : List σ) (vis : Finset ℕ) (acc : List π) (x : ℕ) :
    x ∈ (expandAll adj tailf rec src vis acc).2.map tailp
      ↔ x ∈ acc.map tailp ∨ ((∃ s ∈ src, x ∈ adj (tailf s)) ∧ x ∉ vis) := by
  induction src generalizing vis acc with
  | nil => simp [expandAll]
  | cons s rest ih =>
    simp only [expandAll]
    rw [ih, expandOne_tails_mem tailp _ (hrec s), expandOne_fst_mem]
    simp only [List.mem_cons]
    constructor
    · rintro ((h | ⟨h1, h2⟩) | ⟨⟨t, ht, hx⟩, h2⟩)
      · exact Or.inl h
      · exact Or.inr ⟨⟨s, Or.inl rfl, h1⟩, h2⟩
      · exact Or.inr ⟨⟨t, Or.inr ht, hx⟩, fun hv => h2 (Or.inl hv)⟩
    · rintro (h | ⟨⟨t, rfl | ht, hx⟩, h2⟩)
      · exact Or.inl (Or.inl h)
      · exact Or.inl (Or.inr ⟨hx, h2⟩)
      · by_cases hs : x ∈ adj (tailf s)
        · exact Or.inl (Or.inr ⟨hs, h2⟩)
        · exact Or.inr ⟨⟨t, ht, hx⟩, fun hv => hv.elim h2 hs⟩

theorem expandAll_mem_rec {σ π : Type} (adj : ℕ → List ℕ) (tailf : σ → ℕ)
    (rec : σ → ℕ → π) (src : List σ) (vis : Finset ℕ) (acc : List π) (p : π) :
    p ∈ (expandAll adj tailf rec src vis acc).2
      → p ∈ acc ∨ ∃ s ∈ src, ∃ c ∈ adj (tailf s), p = rec s c := by
  induction src generalizing vis acc with
  | nil => intro h; exact Or.inl h
  | cons s rest ih =>
    simp only [expandAll]
    intro h
    rcases ih _ _ h with h | ⟨t, ht, c, hc, rfl⟩
    · rcases expandOne_mem _ _ _ _ _ h with h | ⟨c, hc, rfl⟩
      · exact Or.inl h
      · exact Or.inr ⟨s, List.mem_cons_self _ _, c, hc, rfl⟩
    · exact Or.inr ⟨t, List.mem_cons_of_mem _ ht, c, hc, rfl⟩

theorem mem_nbrSet (adj : ℕ → List ℕ) (S : Finset ℕ) (x : ℕ) :
    x ∈ nbrSet adj S ↔ ∃ v ∈ S, x ∈ adj v := by
  simp [nbrSet, Finset.mem_biUnion, List.mem_toFinset]

theorem ball_subset_succ (adj : ℕ → List ℕ) (a k : ℕ) :
    ball adj a k ⊆ ball adj a (k + 1) := by
  rw [ball]
  exact Finset.subset_union_left

theorem nbrSet_ball_subset (adj : ℕ → List ℕ) (a k : ℕ) :
    nbrSet adj (ball adj a k) ⊆ ball adj a (k + 1) := by
  rw [ball]
  exact Finset.subset_union_right

theorem hasWalk_succ_iff (adj : ℕ → List ℕ) (n : ℕ) :
    ∀ x y, hasWalk adj (n + 1) x y ↔ ∃ c, hasWalk adj n x c ∧ y ∈ adj c := by
  induction n with
  | zero =>
    intro x y
    simp only [hasWalk]
    constructor
    · rintro ⟨c, hc, rfl⟩
      exact ⟨x, rfl, hc⟩
    · rintro ⟨c, rfl, hy⟩
      exact ⟨y, hy, rfl⟩
  | succ n ih =>
    intro x y
    constructor
    · rintro ⟨c, hc, hw⟩
      rcases (ih c y).mp hw with ⟨d, hd, hy⟩
      exact ⟨d, ⟨c, hc, hd⟩, hy⟩
    · rintro ⟨d, ⟨c, hc, hd⟩, hy⟩
      exact ⟨c, hc, (ih c y).mpr ⟨d, hd, hy⟩⟩

theorem hasWalk_symm (adj : ℕ → List ℕ) (hsym : ∀ u v, v ∈ adj u ↔ u ∈ adj v) (n : ℕ) :
    ∀ x y, hasWalk adj n x y → hasWalk adj n y x := by
  induction n with
  | zero => intro x y h; exact h.symm
  | succ n ih =>
    rintro x y ⟨c, hc, hw⟩
    exact (hasWalk_succ_iff adj n y x).mpr ⟨c, ih c y hw, (hsym x c).mp hc⟩

theorem mem_ball_iff (adj : ℕ → List ℕ) (a : ℕ) :
    ∀ k b, b ∈ ball adj a k ↔ ∃ m, m ≤ k ∧ hasWalk adj m a b := by
  intro k
  induction k with
  | zero =>
    intro b
    simp only [ball, Finset.mem_singleton]
    constructor
    · rintro rfl
      exact ⟨0, le_refl 0, rfl⟩
    · rintro ⟨m, hm, hw⟩
      rw [Nat.le_zero.mp hm] at hw
      exact hw.symm
  | succ k ih =>
    intro b
    rw [ball, Finset.mem_union]
    constructor
    · rintro (h | h)
      · rcases (ih b).mp h with ⟨m, hm, hw⟩
        exact ⟨m, Nat.le_succ_of_le hm, hw⟩
      · rcases (mem_nbrSet adj _ b).mp h with ⟨v, hv, hb⟩
        rcases (ih v).mp hv with ⟨m, hm, hw⟩
        exact ⟨m + 1, Nat.succ_le_succ hm, (hasWalk_succ_iff adj m a b).mpr ⟨v, hw, hb⟩⟩
    · rintro ⟨m, hm, hw⟩
      rcases Nat.lt_succ_iff_lt_or_eq.mp (Nat.lt_succ_of_le hm) with hlt | rfl
      · exact Or.inl ((ih b).mpr ⟨m, Nat.lt_succ_iff.mp hlt, hw⟩)
      · rcases (hasWalk_succ_iff adj k a b).mp hw with ⟨c, hc, hb⟩
        exact Or.inr ((mem_nbrSet adj _ b).mpr
          ⟨c, (ih c).mpr ⟨k, le_refl k, hc⟩, hb⟩)

theorem mem_ball_symm (adj : ℕ → List ℕ) (hsym : ∀ u v, v ∈ adj u ↔ u ∈ adj v)
    (a b k : ℕ) : b ∈ ball adj a k ↔ a ∈ ball adj b k := by
  rw [mem_ball_iff, mem_ball_iff]
  exact exists_congr fun m => and_congr_right fun _ =>
    ⟨hasWalk_symm adj hsym m a b, hasWalk_symm adj hsym m b a⟩

theorem frontier_step (adj : ℕ → List ℕ) (a k : ℕ) (S : Finset ℕ)
    (hS : ∀ x, x ∈ S ↔ (x ∈ ball adj a (k + 1) ∧ x ∉ ball adj a k)) :
    (∀ x, (x ∈ ball adj a (k + 1) ∨ x ∈ nbrSet adj S) ↔ x ∈ ball adj a (k + 2))
    ∧ (∀ x, (x ∈ nbrSet adj S ∧ x ∉ ball adj a (k + 1))
        ↔ (x ∈ ball adj a (k + 2) ∧ x ∉ ball adj a (k + 1))) := by
  have hsub : ∀ x, x ∈ nbrSet adj S → x ∈ ball adj a (k + 2) := by
    intro x hx
    rcases (mem_nbrSet adj S x).mp hx with ⟨v, hv, hxv⟩
    exact nbrSet_ball_subset adj a (k + 1)
      ((mem_nbrSet adj _ x).mpr ⟨v, ((hS v).mp hv).1, hxv⟩)
  have hfwd : ∀ x, x ∈ ball adj a (k + 2) → x ∈ ball adj a (k + 1) ∨ x ∈ nbrSet adj S := by
    intro x hx
    rw [ball, Finset.mem_union] at hx
    rcases hx with hx | hx
    · exact Or.inl hx
    · rcases (mem_nbrSet adj _ x).mp hx with ⟨v, hv, hxv⟩
      by_cases hvk : v ∈ ball adj a k
      · exact Or.inl (nbrSet_ball_subset adj a k ((mem_nbrSet adj _ x).mpr ⟨v, hvk, hxv⟩))
      · exact Or.inr ((mem_nbrSet adj S x).mpr ⟨v, (hS v).mpr ⟨hv, hvk⟩, hxv⟩)
  constructor
  · intro x
    constructor
    · rintro (h | h)
      · exact ball_subset_succ adj a (k + 1) h
      · exact hsub x h
    · exact hfwd x
  · intro x
    constructor
    · rintro ⟨h1, h2⟩
      exact ⟨hsub x h1, h2⟩
    · rintro ⟨h1, h2⟩
      rcases hfwd x h1 with h | h
      · exact absurd h h2
      · exact ⟨h, h2⟩

theorem mem_realizedBond12 (adj : ℕ → List ℕ) (a x : ℕ) :
    x ∈ realizedBond12 adj a ↔ x ∈ adj a := mem_sortBy ltNat x (adj a)

theorem mem_ball_zero (adj : ℕ → List ℕ) (a x : ℕ) :
    x ∈ ball adj a 0 ↔ x = a := by
  simp [ball]

theorem mem_ball_one (adj : ℕ → List ℕ) (a x : ℕ) :
    x ∈ ball adj a 1 ↔ (x = a ∨ x ∈ adj a) := by
  show x ∈ ball adj a (0 + 1) ↔ _
  rw [ball]
  simp [ball, nbrSet, Finset.mem_biUnion]

theorem mem_visited12 (adj : ℕ → List ℕ) (a x : ℕ) :
    x ∈ visited12 adj a ↔ x ∈ ball adj a 1 := by
  rw [mem_ball_one]
  simp [visited12, mem_sortBy, realizedBond12]

theorem sphere_one_char (adj : ℕ → List ℕ) (hirr : ∀ v, v ∉ adj v) (a y : ℕ) :
    y ∈ (adj a).toFinset ↔ (y ∈ ball adj a 1 ∧ y ∉ ball adj a 0) := by
  rw [List.mem_toFinset, mem_ball_one, mem_ball_zero]
  constructor
  · intro hy
    refine ⟨Or.inr hy, fun hya => ?_⟩
    rw [hya] at hy
    exact hirr a hy
  · rintro ⟨hy | hy, hne⟩
    · exact absurd hy hne
    · exact hy

theorem stage13_fst_mem (adj : ℕ → List ℕ) (hirr : ∀ v, v ∉ adj v) (a x : ℕ) :
    x ∈ (stage13 adj a).1 ↔ x ∈ ball adj a 2 := by
  have h1 : (x ∈ ball adj a 1 ∨ x ∈ nbrSet adj (adj a).toFinset) ↔ x ∈ ball adj a 2 :=
    (frontier_step adj a 0 (adj a).toFinset (sphere_one_char adj hirr a)).1 x
  unfold stage13
  rw [expandAll_fst_mem]
  constructor
  · rintro (h | ⟨s, hs, hx⟩)
    · exact h1.mp (Or.inl ((mem_visited12 adj a x).mp h))
    · exact h1.mp (Or.inr ((mem_nbrSet adj _ x).mpr
        ⟨s, List.mem_toFinset.mpr ((mem_realizedBond12 adj a s).mp hs), hx⟩))
  · intro h
    rcases h1.mpr h with h | h
    · exact Or.inl ((mem_visited12 adj a x).mpr h)
    · rcases (mem_nbrSet adj _ x).mp h with ⟨v, hv, hxv⟩
      exact Or.inr ⟨v, (mem_realizedBond12 adj a v).mpr (List.mem_toFinset.mp hv), hxv⟩

theorem stage13_tails_mem (adj : ℕ → List ℕ) (hirr : ∀ v, v ∉ adj v) (a x : ℕ) :
    x ∈ (stage13 adj a).2.map (fun p => p.2)
      ↔ (x ∈ ball adj a 2 ∧ x ∉ ball adj a 1) := by
  have h2 : (x ∈ nbrSet adj (adj a).toFinset ∧ x ∉ ball adj a 1)
      ↔ (x ∈ ball adj a 2 ∧ x ∉ ball adj a 1) :=
    (frontier_step adj a 0 (adj a).toFinset (sphere_one_char adj hirr a)).2 x
  unfold stage13
  rw [expandAll_tails_mem (fun p => p.2) adj id (fun b c => (b, c)) (fun _ _ => rfl)]
  simp only [List.map_nil, List.mem_nil_iff, false_or]
  rw [← h2]
  constructor
  · rintro ⟨⟨s, hs, hx⟩, hv⟩
    exact ⟨(mem_nbrSet adj _ x).mpr
      ⟨s, List.mem_toFinset.mpr ((mem_realizedBond12 adj a s).mp hs), hx⟩,
      fun hb => hv ((mem_visited12 adj a x).mpr hb)⟩
  · rintro ⟨hn, hb⟩
    rcases (mem_nbrSet adj _ x).mp hn with ⟨v, hv, hxv⟩
    exact ⟨⟨v, (mem_realizedBond12 adj a v).mpr (List.mem_toFinset.mp hv), hxv⟩,
      fun hvis => hb ((mem_visited12 adj a x).mp hvis)⟩

theorem stage14_src_char (adj : ℕ → List ℕ) (a x : ℕ) :
    (∃ s ∈ sortBy ltPair (stage13 adj a).2, x ∈ adj s.2)
      ↔ x ∈ nbrSet adj (((stage13 adj a).2.map (fun p => p.2)).toFinset) := by
  rw [mem_nbrSet]
  constructor
  · rintro ⟨s, hs, hx⟩
    exact ⟨s.2, List.mem_toFinset.mpr
      (List.mem_map_of_mem _ ((mem_sortBy ltPair s _).mp hs)), hx⟩
  · rintro ⟨v, hv, hxv⟩
    rcases List.mem_map.mp (List.mem_toFinset.mp hv) with ⟨p, hp, rfl⟩
    exact ⟨p, (mem_sortBy ltPair p _).mpr hp, hxv⟩

theorem stage14_fst_mem (adj : ℕ → List ℕ) (hirr : ∀ v, v ∉ adj v) (a x : ℕ) :
    x ∈ (stage14 adj a).1 ↔ x ∈ ball adj a 3 := by
  have hS : ∀ y, y ∈ ((stage13 adj a).2.map (fun p => p.2)).toFinset
      ↔ (y ∈ ball adj a 2 ∧ y ∉ ball adj a 1) := by
    intro y
    rw [List.mem_toFinset]
    exact stage13_tails_mem adj hirr a y
  have h1 : (x ∈ ball adj a 2
        ∨ x ∈ nbrSet adj (((stage13 adj a).2.map (fun p => p.2)).toFinset))
      ↔ x ∈ ball adj a 3 :=
    (frontier_step adj a 1 _ hS).1 x
  unfold stage14
  rw [expandAll_fst_mem]
  rw [stage13_fst_mem adj hirr, stage14_src_char adj a x]
  exact h1

theorem stage14_tails_mem (adj : ℕ → List ℕ) (hirr : ∀ v, v ∉ adj v) (a x : ℕ) :
    x ∈ (stage14 adj a).2.map (fun p => p.2.2)
      ↔ (x ∈ ball adj a 3 ∧ x ∉ ball adj a 2) := by
  have hS : ∀ y, y ∈ ((stage13 adj a).2.map (fun p => p.2)).toFinset
      ↔ (y ∈ ball adj a 2 ∧ y ∉ ball adj a 1) := by
    intro y
    rw [List.mem_toFinset]
    exact stage13_tails_mem adj hirr a y
  have h2 : (x ∈ nbrSet adj (((stage13 adj a).2.map (fun p => p.2)).toFinset)
        ∧ x ∉ ball adj a 2)
      ↔ (x ∈ ball adj a 3 ∧ x ∉ ball adj a 2) :=
    (frontier_step adj a 1 _ hS).2 x
  unfold stage14
  rw [expandAll_tails_mem (fun (p : ℕ × ℕ × ℕ) => p.2.2) adj (fun (p : ℕ × ℕ) => p.2)
    (fun (p : ℕ × ℕ) (c : ℕ) => (p.1, p.2, c)) (fun _ _ => rfl)]
  simp only [List.map_nil, List.mem_nil_iff, false_or]
  rw [stage13_fst_mem adj hirr, stage14_src_char adj a x]
  exact h2

theorem stage15_tails_empty (adj : ℕ → List ℕ) (hirr : ∀ v, v ∉ adj v) (a x : ℕ) :
    x ∉ (stage15 adj a).2.map (fun q => q.2.2.2) := by
  intro hx
  unfold stage15 at hx
  rw [expandAll_tails_mem (fun (q : ℕ × ℕ × ℕ × ℕ) => q.2.2.2) adj
    (fun (t : ℕ × ℕ × ℕ) => t.2.1)
    (fun (t : ℕ × ℕ × ℕ) (c : ℕ) => (t.1, t.2.1, t.2.2, c)) (fun _ _ => rfl)] at hx
  rcases hx with hx | ⟨⟨t, ht, hxt⟩, hnv⟩
  · simp at hx
  · have ht14 : t ∈ (stage14 adj a).2 := (mem_sortBy ltTriple t _).mp ht
    rcases expandAll_mem_rec adj _ _ _ _ _ t ht14 with h | ⟨s, hs, c, _, rfl⟩
    · simp at h
    · have hs13 : s ∈ (stage13 adj a).2 := (mem_sortBy ltPair s _).mp hs
      have hs2 : s.2 ∈ ball adj a 2 :=
        ((stage13_tails_mem adj hirr a s.2).mp (List.mem_map_of_mem _ hs13)).1
      have hx3 : x ∈ ball adj a 3 :=
        nbrSet_ball_subset adj a 2 ((mem_nbrSet adj _ x).mpr ⟨s.2, hs2, hxt⟩)
      exact hnv ((stage14_fst_mem adj hirr a x).mpr hx3)

theorem mem_tails13 (adj : ℕ → List ℕ) (hirr : ∀ v, v ∉ adj v) (a b : ℕ) :
    b ∈ tails13 adj a ↔ (b ∈ ball adj a 2 ∧ b ∉ ball adj a 1) := by
  rw [← stage13_tails_mem adj hirr a b]
  unfold tails13 realizeBondPaths
  constructor
  · intro h
    rcases List.mem_map.mp h with ⟨p, hp, rfl⟩
    exact List.mem_map_of_mem _ ((mem_sortBy ltPair p _).mp hp)
  · intro h
    rcases List.mem_map.mp h with ⟨p, hp, rfl⟩
    exact List.mem_map_of_mem _ ((mem_sortBy ltPair p _).mpr hp)

theorem mem_tails14 (adj : ℕ → List ℕ) (hirr : ∀ v, v ∉ adj v) (a b : ℕ) :
    b ∈ tails14 adj a ↔ (b ∈ ball adj a 3 ∧ b ∉ ball adj a 2) := by
  rw [← stage14_tails_mem adj hirr a b]
  unfold tails14 realizeBondPaths
  constructor
  · intro h
    rcases List.mem_map.mp h with ⟨p, hp, rfl⟩
    exact List.mem_map_of_mem _ ((mem_sortBy ltTriple p _).mp hp)
  · intro h
    rcases List.mem_map.mp h with ⟨p, hp, rfl⟩
    exact List.mem_map_of_mem _ ((mem_sortBy ltTriple p _).mpr hp)

theorem mem_tails15 (adj : ℕ → List ℕ) (hirr : ∀ v, v ∉ adj v) (a b : ℕ) :
    b ∉ tails15 adj a := by
  intro h
  unfold tails15 realizeBondPaths at h
  rcases List.mem_map.mp h with ⟨p, hp, rfl⟩
  exact stage15_tails_empty adj hirr a p.2.2.2
    (List.mem_map_of_mem _ ((mem_sortBy _ p _).mp hp))

/-- Claim C2: after realization, for every atom `a` and every other atom
`b`, `b` appears in at most one of `a`'s derived neighbour lists —
`bond12`, the tails of `bond13`, the tails of `bond14`, the tails of
`bond15` (shortest-path exclusivity) — and membership is symmetric: `b` is
a 1-k neighbour of `a` iff `a` is a 1-k neighbour of `b`, for
`k ∈ {2,3,4,5}`.  The hypotheses say the raw bond graph is symmetric and
loop-free, as `addBond` guarantees. -/
theorem c2_thm (adj : ℕ → List ℕ) (hsym : ∀ u v, v ∈ adj u ↔ u ∈ adj v)
    (hirr : ∀ v, v ∉ adj v) (a b : ℕ) :
    ((b ∈ realizedBond12 adj a → b ∉ tails13 adj a ∧ b ∉ tails14 adj a ∧ b ∉ tails15 adj a)
    ∧ (b ∈ tails13 adj a → b ∉ realizedBond12 adj a ∧ b ∉ tails14 adj a ∧ b ∉ tails15 adj a)
    ∧ (b ∈ tails14 adj a → b ∉ realizedBond12 adj a ∧ b ∉ tails13 adj a ∧ b ∉ tails15 adj a)
    ∧ (b ∈ tails15 adj a → b ∉ realizedBond12 adj a ∧ b ∉ tails13 adj a ∧ b ∉ tails14 adj a))
    ∧ ((b ∈ realizedBond12 adj a ↔ a ∈ realizedBond12 adj b)
    ∧ (b ∈ tails13 adj a ↔ a ∈ tails13 adj b)
    ∧ (b ∈ tails14 adj a ↔ a ∈ tails14 adj b)
    ∧ (b ∈ tails15 adj a ↔ a ∈ tails15 adj b)) := by
  have hb1 : b ∈ realizedBond12 adj a → b ∈ ball adj a 1 := fun h =>
    (mem_ball_one adj a b).mpr (Or.inr ((mem_realizedBond12 adj a b).mp h))
  have hb12 : ball adj a 1 ⊆ ball adj a 2 := ball_subset_succ adj a 1
  constructor
  · refine ⟨fun h => ⟨?_, ?_, mem_tails15 adj hirr a b⟩,
      fun h => ⟨?_, ?_, mem_tails15 adj hirr a b⟩,
      fun h => ⟨?_, ?_, mem_tails15 adj hirr a b⟩,
      fun h => absurd h (mem_tails15 adj hirr a b)⟩
    · intro h13
      exact ((mem_tails13 adj hirr a b).mp h13).2 (hb1 h)
    · intro h14
      exact ((mem_tails14 adj hirr a b).mp h14).2 (hb12 (hb1 h))
    · intro h12
      exact ((mem_tails13 adj hirr a b).mp h).2 (hb1 h12)
    · intro h14
      exact ((mem_tails14 adj hirr a b).mp h14).2 ((mem_tails13 adj hirr a b).mp h).1
    · intro h12
      exact ((mem_tails14 adj hirr a b).mp h).2 (hb12 (hb1 h12))
    · intro h13
      exact ((mem_tails14 adj hirr a b).mp h).2 ((mem_tails13 adj hirr a b).mp h13).1
  · refine ⟨?_, ?_, ?_, ?_⟩
    · rw [mem_realizedBond12, mem_realizedBond12]
      exact hsym a b
    · rw [mem_tails13 adj hirr a b, mem_tails13 adj hirr b a,
        mem_ball_symm adj hsym a b 2, mem_ball_symm adj hsym a b 1]
    · rw [mem_tails14 adj hirr a b, mem_tails14 adj hirr b a,
        mem_ball_symm adj hsym a b 3, mem_ball_symm adj hsym a b 2]
    · exact ⟨fun h => absurd h (mem_tails15 adj hirr a b),
        fun h => absurd h (mem_tails15 adj hirr b a)⟩

/-- Witness for C2 on the two-atom single-bond graph, for the atom pair
`(0, 1)`; the symmetry and loop-freeness hypotheses are discharged by case
analysis on the concrete adjacency. -/
theorem c2_witness :
    (1 ∈ realizedBond12 adjH2 0 ↔ 0 ∈ realizedBond12 adjH2 1)
    ∧ (1 ∈ tails13 adjH2 0 ↔ 0 ∈ tails13 adjH2 1)
    ∧ (1 ∈ tails14 adjH2 0 ↔ 0 ∈ tails14 adjH2 1)
    ∧ (1 ∈ tails15 adjH2 0 ↔ 0 ∈ tails15 adjH2 1) :=
  (c2_thm adjH2
    (by
      intro u v
      rcases u with _ | _ | u <;> rcases v with _ | _ | v <;> simp [adjH2])
    (by
      intro v
      rcases v with _ | _ | v <;> simp [adjH2]) 0 1).2

end DuMM
